import Mathlib

/-!
# cscan: the labelled corpus `vuln.c`

A shallow embedding of the functions of `src/vuln.c` over a small monitored
C machine.  Every local array and every `malloc` result is a block of the
machine's memory; a C variable is a Lean value (`Var`) naming the block it
refers to.  Each library call and each indexed write is a state transformer
that performs the access when it is defined and records what it did in the
log, so that the properties of the corpus (which copies fit, which indices are
in range, which pointer is used after `free`) are statements about the log and
the final memory of the embedded function.
-/

namespace CScan

/-! ## Machine -/

/-- The size of `char` in bytes. -/
def sizeof_char : Nat := 1

/-- The size of `int` in bytes (32-bit `int`). -/
def sizeof_int : Nat := 4

/-- A pointer value: `NULL` or the address of a block of the machine. -/
inductive Ptr where
  | null
  | addr (blk : Nat)
  deriving DecidableEq, Repr

/-- Where a block lives: a local array, or a `malloc` result. -/
inductive Region where
  | stack
  | heap
  deriving DecidableEq, Repr

/-- A block of memory: `cap` elements, each indeterminate (`none`) until it is
written; `freed` is set by `free`. -/
structure Block where
  name : String
  region : Region
  cap : Nat
  freed : Bool
  cells : List (Option Int)
  deriving DecidableEq, Repr

/-- A C variable of array or pointer type: its source name and its value. -/
structure Var where
  name : String
  val : Ptr
  deriving DecidableEq, Repr

/-- What a pointer value refers to at the moment it is used. -/
inductive Target where
  | null
  | live
  | freed
  deriving DecidableEq, Repr

/-- What the machine records, in execution order. -/
inductive Event where
  /-- `v = malloc(bytes)`; `ok` tells whether the result is non-null. -/
  | malloc (v : String) (bytes : Nat) (ok : Bool)
  /-- `free(v)`, with what `v` referred to. -/
  | free (v : String) (t : Target)
  /-- The value of `v` is dereferenced, or handed to a callee that dereferences it. -/
  | use (v : String) (site : String) (t : Target)
  /-- A branch on `v == NULL` or `v != NULL`; `nonNull` is the value of `v != NULL`. -/
  | test (v : String) (nonNull : Bool)
  /-- A string copy of `len` bytes (terminator included) into `dst` of `cap` bytes. -/
  | copy (dst : String) (len : Nat) (cap : Nat)
  /-- A write of the element `v[idx]`, `v` having `cap` elements. -/
  | store (v : String) (idx : Int) (cap : Nat)
  /-- The function returns; `line` is the source line of the `return` (or of the
  closing brace). -/
  | ret (line : Nat)
  /-- The element `v[idx]` of an array of `cap` structures is selected. -/
  | index (v : String) (idx : Int) (cap : Nat)
  /-- The format of a call of `callee` has `count` conversions for which the call
  passes no argument of their kind. -/
  | vararg (callee : String) (count : Nat)
  deriving DecidableEq, Repr

/-- The state of the machine. -/
structure State where
  mem : List Block
  log : List Event
  stdin : List Int
  stdout : List Int
  stderr : List Int
  deriving DecidableEq, Repr

/-- The state a function starts in, with `input` waiting on standard input. -/
def State.init (input : List Int) : State :=
  { mem := [], log := [], stdin := input, stdout := [], stderr := [] }

/-- Record an event. -/
def State.emit (s : State) (e : Event) : State :=
  { s with log := s.log ++ [e] }

/-- What the pointer `p` refers to in `s`. A pointer to no block of the machine
does not arise; it is classed with the freed ones. -/
def State.target (s : State) (p : Ptr) : Target :=
  match p with
  | .null => .null
  | .addr b =>
    match s.mem.get? b with
    | some blk => if blk.freed then .freed else .live
    | none => .freed

/-- The capacity of the block `p` points to. -/
def State.capOf (s : State) (p : Ptr) : Nat :=
  match p with
  | .null => 0
  | .addr b =>
    match s.mem.get? b with
    | some blk => blk.cap
    | none => 0

/-- The cells of the block `p` points to. -/
def State.cellsOf (s : State) (p : Ptr) : List (Option Int) :=
  match p with
  | .null => []
  | .addr b =>
    match s.mem.get? b with
    | some blk => blk.cells
    | none => []

/-- A local array declaration `T name[n];`: a fresh stack block of `n`
indeterminate elements. -/
def decl (name : String) (n : Nat) (s : State) : Var × State :=
  ({ name := name, val := .addr s.mem.length },
   { s with mem := s.mem ++ [{ name := name, region := .stack, cap := n, freed := false,
                               cells := List.replicate n none }] })

/-- The call `v = malloc(bytes)` for a pointer to elements of `elem` bytes.
`ok` is the outcome chosen by the environment: `false` makes `malloc` return
`NULL`. -/
def malloc (v : String) (elem : Nat) (bytes : Nat) (ok : Bool) (s : State) : Var × State :=
  if ok then
    ({ name := v, val := .addr s.mem.length },
     { (s.emit (.malloc v bytes true)) with
       mem := s.mem ++ [{ name := v, region := .heap, cap := bytes / elem, freed := false,
                          cells := List.replicate (bytes / elem) none }] })
  else
    ({ name := v, val := .null }, s.emit (.malloc v bytes false))

/-- Mark block `b` as freed. -/
def markFreed (mem : List Block) (b : Nat) : List Block :=
  match mem.get? b with
  | some blk => mem.set b { blk with freed := true }
  | none => mem

/-- The call `free(v)`: a no-op on `NULL`, releases a live block; freeing a
freed block is recorded and changes nothing. -/
def free (v : Var) (s : State) : State :=
  let s1 := s.emit (.free v.name (s.target v.val))
  match v.val, s.target v.val with
  | .addr b, .live => { s1 with mem := markFreed s1.mem b }
  | _, _ => s1

/-- Write `x` into cell `i` of block `b`. -/
def poke (mem : List Block) (b : Nat) (i : Nat) (x : Int) : List Block :=
  match mem.get? b with
  | some blk => mem.set b { blk with cells := blk.cells.set i (some x) }
  | none => mem

/-- The element write `p[i] = x` once `p` is known to point to a live block:
recorded always, performed when `0 <= i < cap`. -/
def put (v : Var) (i : Int) (x : Int) (s : State) : State :=
  let s1 := s.emit (.store v.name i (s.capOf v.val))
  match v.val with
  | .addr b =>
    if 0 ≤ i ∧ i < (s.capOf v.val : Int) then { s1 with mem := poke s1.mem b i.toNat x } else s1
  | .null => s1

/-- The statement `v[i] = x;`. -/
def store (v : Var) (i : Int) (x : Int) (s : State) : State :=
  let s1 := s.emit (.use v.name "index" (s.target v.val))
  match s.target v.val with
  | .live => put v i x s1
  | _ => s1

/-- Write the elements `xs` to `v[i]`, `v[i+1]`, ... -/
def putAll (v : Var) : Int → List Int → State → State
  | _, [], s => s
  | i, x :: xs, s => putAll v (i + 1) xs (put v i x s)

/-- The bytes of a string literal, without the terminating null. -/
def litBytes (lit : String) : List Int :=
  lit.toList.map (fun c => (c.toNat : Int))

/-- The number of bytes a string literal occupies, terminating null included. -/
def litSize (lit : String) : Nat :=
  (litBytes lit).length + 1

/-- The call `strcpy(dst, "lit")`: every byte of the literal and then the
terminating null is written to `dst[0]`, `dst[1]`, ..., whatever the capacity
of `dst`. -/
def strcpy (dst : Var) (lit : String) (s : State) : State :=
  let s1 := s.emit (.use dst.name "strcpy.dest" (s.target dst.val))
  match s.target dst.val with
  | .live =>
    putAll dst 0 (litBytes lit ++ [0]) (s1.emit (.copy dst.name (litSize lit) (s.capOf dst.val)))
  | _ => s1

/-- The statement `return;` at source line `line` (or the end of the body). -/
def ret (line : Nat) (s : State) : State :=
  s.emit (.ret line)

/-! ## Reading the log -/

/-- The string copies of a run: destination, bytes copied, capacity. -/
def copies (s : State) : List (String × Nat × Nat) :=
  s.log.filterMap fun e =>
    match e with
    | .copy d n c => some (d, n, c)
    | _ => none

/-- The element writes of a run: variable, index, capacity. -/
def stores (s : State) : List (String × Int × Nat) :=
  s.log.filterMap fun e =>
    match e with
    | .store v i c => some (v, i, c)
    | _ => none

/-- An element write is in bounds when `0 <= idx < cap`. -/
def inBounds (w : String × Int × Nat) : Bool :=
  decide (0 ≤ w.2.1) && decide (w.2.1 < (w.2.2 : Int))

/-- The element writes of a run that fall outside their block. -/
def oobStores (s : State) : List (String × Int × Nat) :=
  (stores s).filter fun w => !inBounds w

/-- The copies of a run that are longer than their destination. -/
def overlongCopies (s : State) : List (String × Nat × Nat) :=
  (copies s).filter fun c => decide (c.2.1 > c.2.2)

/-- The pointer uses of a run that dereference `NULL`: variable and site. -/
def nullDerefs (s : State) : List (String × String) :=
  s.log.filterMap fun e =>
    match e with
    | .use v site .null => some (v, site)
    | _ => none

/-- The pointer uses of a run that reach a freed block: variable and site. -/
def usesAfterFree (s : State) : List (String × String) :=
  s.log.filterMap fun e =>
    match e with
    | .use v site .freed => some (v, site)
    | _ => none

/-- The calls of `free` in a run, each with what its argument referred to. -/
def frees (s : State) : List (String × Target) :=
  s.log.filterMap fun e =>
    match e with
    | .free v t => some (v, t)
    | _ => none

/-- The calls of `free` in a run whose argument was already freed. -/
def doubleFrees (s : State) : List String :=
  s.log.filterMap fun e =>
    match e with
    | .free v .freed => some v
    | _ => none

/-- The source lines at which the run returned. -/
def exits (s : State) : List Nat :=
  s.log.filterMap fun e =>
    match e with
    | .ret line => some line
    | _ => none

/-- The `malloc` results that are still allocated in `s`: a block of the heap
that no `free` has released. -/
def leaked (s : State) : List String :=
  s.mem.filterMap fun b =>
    match b.region, b.freed with
    | .heap, false => some b.name
    | _, _ => none

/-- The uses of a pointer that came from `malloc` and that no test of the same
pointer has found non-null since: variable and site. `pending` holds the
variables assigned from `malloc` and not yet found non-null. -/
def uncheckedFrom (pending : List String) : List Event → List (String × String)
  | [] => []
  | .malloc v _ _ :: es => uncheckedFrom (v :: pending) es
  | .test v true :: es => uncheckedFrom (pending.filter fun w => w ≠ v) es
  | .use v site _ :: es =>
    if v ∈ pending then (v, site) :: uncheckedFrom pending es else uncheckedFrom pending es
  | _ :: es => uncheckedFrom pending es

/-- The unchecked uses of `malloc` results in a run. -/
def uncheckedUses (s : State) : List (String × String) :=
  uncheckedFrom [] s.log

/-! ## The pointer lifecycle of the design -/

/-- Modelled from the spec: the lifecycle tag of a pointer variable, §3
`PointerState`; the analyzer that keeps it is not part of the corpus file. -/
inductive PointerState where
  | Uninitialized
  | Allocated
  | Freed
  | Escaped
  deriving DecidableEq, Repr

/-- The two findings the lifecycle gives rise to. -/
inductive Rule where
  | doubleFree
  | useAfterFree
  deriving DecidableEq, Repr

/-- A lifecycle finding: its rule, the pointer variable, the site. -/
structure Finding where
  rule : Rule
  var : String
  site : String
  deriving DecidableEq, Repr

/-- Modelled from the spec: the transitions of §4.1 for the pointer variable
`p`, the tracker itself not being part of the corpus file. An allocation call
assigned to `p` makes it `Allocated`; a deallocation call makes an `Allocated`
pointer `Freed` and is a double-free finding on a `Freed` one; a use of a
`Freed` pointer is a use-after-free finding. -/
def observe (p : String) (st : PointerState) (e : Event) : PointerState × List Finding :=
  match e with
  | .malloc v _ _ => if v = p then (.Allocated, []) else (st, [])
  | .free v _ =>
    if v = p then
      match st with
      | .Allocated => (.Freed, [])
      | .Freed => (.Freed, [{ rule := .doubleFree, var := v, site := "free" }])
      | other => (other, [])
    else (st, [])
  | .use v site _ =>
    if v = p then
      match st with
      | .Freed => (.Freed, [{ rule := .useAfterFree, var := v, site := site }])
      | other => (other, [])
    else (st, [])
  | _ => (st, [])

/-- Modelled from the spec: the tracker of §4.1 run over the statements of a
function in execution order, from the state `st`: the final state of `p` and
the findings. -/
def lifecycle (p : String) : PointerState → List Event → PointerState × List Finding
  | st, [] => (st, [])
  | st, e :: es =>
    ((lifecycle p (observe p st e).1 es).1, (observe p st e).2 ++ (lifecycle p (observe p st e).1 es).2)

/-! ## Control -/

/-- How a loop body (or a loop) ends: it falls through to what follows, or it
has executed a `return`. -/
inductive Ctl where
  | next (s : State)
  | ret (s : State)
  deriving DecidableEq, Repr

/-- The loop `for (i = i0; cond(i); i++) body`, with `fuel` bounding the number
of times the condition is evaluated; `none` when the fuel runs out. The
counter is an `int`; in the corpus it stays below 101, so it never wraps. -/
def forLoop (cond : Int → Bool) (body : Int → State → Ctl) : Nat → Int → State → Option Ctl
  | 0, _, _ => none
  | fuel + 1, i, s =>
    if cond i then
      match body i s with
      | .next s1 => forLoop cond body fuel (i + 1) s1
      | .ret s1 => some (.ret s1)
    else some (.next s)

/-- What follows a loop: run `k` when the loop fell through, stop when it
returned. -/
def afterLoop (r : Option Ctl) (k : State → State) : Option State :=
  match r with
  | some (.next s) => some (k s)
  | some (.ret s) => some s
  | none => none

/-- The test `v == NULL` of a branch. -/
def eqNull (v : Var) (s : State) : Bool × State :=
  (decide (v.val = .null), s.emit (.test v.name (decide (v.val ≠ .null))))

/-- The test `v != NULL` of a branch. -/
def neNull (v : Var) (s : State) : Bool × State :=
  (decide (v.val ≠ .null), s.emit (.test v.name (decide (v.val ≠ .null))))

/-- The value of a character constant. -/
def chr (c : Char) : Int := c.toNat

/-- The newline character. -/
def newline : Int := 10

/-! ## Sections 1 and 2 of the corpus: `strcpy` -/

/-- The `User` declaration `User user;`: its two array members, `name[30]` and
`email[50]` (the member `id` is an `int`). -/
def declUser (u : String) (s : State) : (Var × Var) × State :=
  let (name, s) := decl (u ++ ".name") 30 s
  let (email, s) := decl (u ++ ".email") 50 s
  ((name, email), s)

/-- The function `safe_strcpy_short_literals` (vuln.c:24). -/
def safe_strcpy_short_literals : State :=
  let s := State.init []
  let (buffer, s) := decl "buffer" 100 s
  let (name, s) := decl "name" 50 s
  let (small, s) := decl "small" 10 s
  let s := strcpy buffer "Hello" s
  let s := strcpy name "John Doe" s
  let s := strcpy small "Test" s
  let s := strcpy buffer "A" s
  let s := strcpy name "Anonymous" s
  ret 35 s

/-- The function `safe_strcpy_with_structs` (vuln.c:37). -/
def safe_strcpy_with_structs : State :=
  let s := State.init []
  let ((user_name, user_email), s) := declUser "user" s
  let s := strcpy user_name "Alice Smith" s
  let s := strcpy user_email "alice@test.com" s
  ret 43 s

/-- The function `unsafe_strcpy_literal_too_long` (vuln.c:56). -/
def unsafe_strcpy_literal_too_long : State :=
  let s := State.init []
  let (tiny, s) := decl "tiny" 10 s
  let s := strcpy tiny "This string is way too long for the buffer" s
  ret 61 s

/-! ## Sections 3 and 4 of the corpus: arrays -/

/-- The function `array_declarations` (vuln.c:76). -/
def array_declarations : State :=
  let s := State.init []
  let (name, s) := decl "name" 20 s
  let (numbers, s) := decl "numbers" 100 s
  let (_, s) := decl "values" 50 s
  let (_, s) := decl "buffer" 256 s
  let s := store name 0 0 s
  let s := store numbers 0 0 s
  ret 86 s

/-- The function `array_out_of_bounds` (vuln.c:98). -/
def array_out_of_bounds : State :=
  let s := State.init []
  let (arr, s) := decl "arr" 10 s
  let (buf, s) := decl "buf" 20 s
  let s := store arr 10 42 s
  let s := store arr 15 100 s
  let s := store buf 20 (chr 'X') s
  let s := store buf 25 (chr 'Y') s
  ret 107 s

/-- The function `loop_without_bounds_check` (vuln.c:109). -/
def loop_without_bounds_check (fuel : Nat) : Option State :=
  let s := State.init []
  let (data, s) := decl "data" 50 s
  afterLoop
    (forLoop (fun i => decide (i ≤ 50)) (fun i s => .next (store data i (i * 2) s)) fuel 0 s)
    (fun s => ret 117 s)

/-- The function `safe_array_access` (vuln.c:119). -/
def safe_array_access (fuel : Nat) : Option State :=
  let s := State.init []
  let (values, s) := decl "values" 100 s
  afterLoop
    (forLoop (fun i => decide (i < 100)) (fun i s => .next (store values i i s)) fuel 0 s)
    (fun s =>
      let s := store values 0 1 s
      let s := store values 50 2 s
      let s := store values 99 3 s
      ret 131 s)

/-! ## Sections 5, 6 and 7 of the corpus: the heap -/

/-- The string held in `cells`: the elements before the first null; `none` when
an indeterminate element or the end of the block comes first. -/
def cstring : List (Option Int) → Option (List Int)
  | [] => none
  | none :: _ => none
  | some c :: rest => if c = 0 then some [] else (cstring rest).map (fun t => c :: t)

/-- The call `printf("%s\n", p)` (format: a string and a newline): the string at `p` and a newline go to standard
output when `p` points to a live block holding a string. -/
def printf_s_nl (p : Var) (s : State) : State :=
  let s1 := s.emit (.use p.name "printf.arg" (s.target p.val))
  match s.target p.val, cstring (s.cellsOf p.val) with
  | .live, some str => { s1 with stdout := s1.stdout ++ str ++ [newline] }
  | _, _ => s1

/-- The function `memory_leak_no_free` (vuln.c:137). -/
def memory_leak_no_free (ok : Bool) : State :=
  let s := State.init []
  let (data, s) := malloc "data" sizeof_char 1024 ok s
  let (c, s) := eqNull data s
  if c then ret 142 s
  else
    let s := strcpy data "Some data" s
    ret 147 s

/-- The function `memory_leak_early_return` (vuln.c:149). -/
def memory_leak_early_return (ok : Bool) (fuel : Nat) : Option State :=
  let s := State.init []
  let (numbers, s) := malloc "numbers" sizeof_int (100 * sizeof_int) ok s
  let (c, s) := eqNull numbers s
  if c then some (ret 153 s)
  else
    afterLoop
      (forLoop (fun i => decide (i < 100))
        (fun i s =>
          let s := store numbers i i s
          if i = 50 then .ret (ret 162 s) else .next s)
        fuel 0 s)
      (fun s =>
        let s := free numbers s
        ret 167 s)

/-- The function `correct_memory_management` (vuln.c:169). -/
def correct_memory_management (ok : Bool) : State :=
  let s := State.init []
  let (buffer, s) := malloc "buffer" sizeof_char 512 ok s
  let (c, s) := eqNull buffer s
  if c then ret 173 s
  else
    let s := strcpy buffer "Data" s
    let s := free buffer s
    ret 180 s

/-- The function `use_after_free_bug` (vuln.c:186). -/
def use_after_free_bug (ok : Bool) : State :=
  let s := State.init []
  let (ptr, s) := malloc "ptr" sizeof_char 100 ok s
  let s := strcpy ptr "Hello" s
  let s := free ptr s
  let s := printf_s_nl ptr s
  let s := strcpy ptr "World" s
  ret 195 s

/-- The function `double_free_bug` (vuln.c:197). -/
def double_free_bug (ok : Bool) : State :=
  let s := State.init []
  let (data, s) := malloc "data" sizeof_int (sizeof_int * 10) ok s
  let s := free data s
  let s := free data s
  ret 203 s

/-- The function `safe_pointer_usage` (vuln.c:205); `ok1` and `ok2` are the
outcomes of its first and second `malloc`. -/
def safe_pointer_usage (ok1 ok2 : Bool) : State :=
  let s := State.init []
  let (ptr, s) := malloc "ptr" sizeof_char 50 ok1 s
  let s := strcpy ptr "Test" s
  let s := free ptr s
  let (ptr, s) := malloc "ptr" sizeof_char 50 ok2 s
  let s := strcpy ptr "New data" s
  let s := free ptr s
  ret 214 s

/-- The function `null_pointer_deref_no_check` (vuln.c:220). -/
def null_pointer_deref_no_check (ok : Bool) : State :=
  let s := State.init []
  let (buffer, s) := malloc "buffer" sizeof_char 256 ok s
  let s := strcpy buffer "Data" s
  let s := store buffer 0 (chr 'X') s
  ret 226 s

/-- The function `null_pointer_safe` (vuln.c:228). -/
def null_pointer_safe (ok : Bool) : State :=
  let s := State.init []
  let (buffer, s) := malloc "buffer" sizeof_char 256 ok s
  let (c, s) := neNull buffer s
  if c then
    let s := strcpy buffer "Data" s
    let s := free buffer s
    ret 236 s
  else ret 236 s

/-! ## Section 9 of the corpus: bounded input -/

/-- The value of `sizeof(v)` for an array `v` of elements of `elem` bytes. -/
def sizeofArr (elem : Nat) (v : Var) (s : State) : Nat :=
  s.capOf v.val * elem

/-- The characters `fgets` takes from the input when it may take at most `k`:
it stops after a newline, at the end of the input, or after `k` characters. -/
def fgetsChars : Nat → List Int → List Int
  | 0, _ => []
  | _ + 1, [] => []
  | k + 1, c :: cs => if c = newline then [c] else c :: fgetsChars k cs

/-- The call `fgets(dst, n, stdin)`: at most `n - 1` characters are taken from
the input and stored, followed by a null, at `dst[0]`, `dst[1]`, ...; at the
end of the input nothing is stored and the result is `NULL`. -/
def fgets (dst : Var) (n : Nat) (s : State) : Ptr × State :=
  let s1 := s.emit (.use dst.name "fgets.dest" (s.target dst.val))
  match s.target dst.val with
  | .live =>
    if n = 0 ∨ s.stdin = [] then (.null, s1)
    else
      let chars := fgetsChars (n - 1) s.stdin
      (dst.val, putAll dst 0 (chars ++ [0]) { s1 with stdin := s.stdin.drop chars.length })
  | _ => (.null, s1)

/-- The length of the initial segment of the string in `cells` that has no
character of `reject`; `none` when an indeterminate element or the end of the
block is read before the string ends. -/
def span (reject : List Int) : List (Option Int) → Option Nat
  | [] => none
  | none :: _ => none
  | some c :: rest =>
    if c = 0 ∨ c ∈ reject then some 0 else (span reject rest).map (fun k => k + 1)

/-- The call `strcspn(v, "reject")`; no result when `v` holds no string. -/
def strcspn (v : Var) (reject : String) (s : State) : Option Nat × State :=
  let s1 := s.emit (.use v.name "strcspn.arg" (s.target v.val))
  match s.target v.val with
  | .live => (span (litBytes reject) (s.cellsOf v.val), s1)
  | _ => (none, s1)

/-- The function `safe_input_alternative` (vuln.c:265), run on the standard
input `input`; `none` when it reads what is not a string. -/
def safe_input_alternative (input : List Int) : Option State :=
  let s := State.init input
  let (buffer, s) := decl "buffer" 50 s
  let (r, s) := fgets buffer (sizeofArr sizeof_char buffer s) s
  if r ≠ .null then
    match strcspn buffer "\n" s with
    | (some k, s) =>
      let s := store buffer k 0 s
      some (ret 272 s)
    | (none, _) => none
  else some (ret 272 s)

/-! ## Copies from a variable source, and `gets` -/

/-- A pointer parameter that the caller has pointed at a string: a block of the
caller holding the bytes `str` and a terminating null. It is no `malloc`
result of the function, and is classed with the stack blocks. -/
def param (name : String) (str : List Int) (s : State) : Var × State :=
  ({ name := name, val := .addr s.mem.length },
   { s with mem := s.mem ++ [{ name := name, region := .stack, cap := str.length + 1,
                               freed := false, cells := (str ++ [0]).map some }] })

/-- The call `strcpy(dst, src)` with a variable source: the string at `src` and
its terminating null are written to `dst[0]`, `dst[1]`, ..., whatever the
capacity of `dst`; no result when `src` holds no string. -/
def strcpyFrom (dst : Var) (src : Var) (s : State) : Option State :=
  let s1 := s.emit (.use dst.name "strcpy.dest" (s.target dst.val))
  let s2 := s1.emit (.use src.name "strcpy.src" (s.target src.val))
  match s.target dst.val, s.target src.val with
  | .live, .live =>
    match cstring (s.cellsOf src.val) with
    | some str =>
      some (putAll dst 0 (str ++ [0])
        (s2.emit (.copy dst.name (str.length + 1) (s.capOf dst.val))))
    | none => none
  | _, _ => some s2

/-- The function `unsafe_strcpy_variable_source` (vuln.c:49), called with
`input` pointing at the string `input`. -/
def unsafe_strcpy_variable_source (input : List Int) : Option State :=
  let s := State.init []
  let (input, s) := param "input" input s
  let (buffer, s) := decl "buffer" 50 s
  (strcpyFrom buffer input s).map fun s => ret 54 s

/-- The function `unsafe_strcpy_from_user` (vuln.c:63), run on the standard
input `input`. The result of `fgets` is not looked at. -/
def unsafe_strcpy_from_user (input : List Int) : Option State :=
  let s := State.init input
  let (dest, s) := decl "dest" 20 s
  let (source, s) := decl "source" 100 s
  let (_, s) := fgets source (sizeofArr sizeof_char source s) s
  (strcpyFrom dest source s).map fun s => ret 70 s

/-- The function `process_user_data` (vuln.c:298), called with `username` and
`password` pointing at the strings of these names. -/
def process_user_data (username : List Int) (password : List Int) : Option State :=
  let s := State.init []
  let (username, s) := param "username" username s
  let (_, s) := param "password" password s
  let ((user_name, user_email), s) := declUser "user" s
  let s := strcpy user_name "DefaultUser" s
  (strcpyFrom user_email username s).map fun s => ret 306 s

/-- The function `mixed_safety_function` (vuln.c:325). -/
def mixed_safety_function (ok : Bool) : State :=
  let s := State.init []
  let (safe_buf, s) := decl "safe_buf" 100 s
  let (unsafe_buf, s) := decl "unsafe_buf" 10 s
  let (dynamic, s) := malloc "dynamic" sizeof_char 50 ok s
  let s := strcpy safe_buf "Short" s
  let s := strcpy unsafe_buf "This is way too long" s
  let (c, s) := neNull dynamic s
  if c then
    let s := strcpy dynamic "Data" s
    let s := free dynamic s
    ret 341 s
  else ret 341 s

/-- The call `gets(dst)`: the characters of the input up to the next newline
(or the end of the input) are stored, followed by a null, at `dst[0]`,
`dst[1]`, ...; the call has no argument that bounds their number. At the end
of the input nothing is stored and the result is `NULL`. -/
def gets (dst : Var) (s : State) : Ptr × State :=
  let s1 := s.emit (.use dst.name "gets.dest" (s.target dst.val))
  match s.target dst.val with
  | .live =>
    if s.stdin = [] then (.null, s1)
    else
      let line := s.stdin.takeWhile (fun c => decide (c ≠ newline))
      (dst.val, putAll dst 0 (line ++ [0]) { s1 with stdin := s.stdin.drop (line.length + 1) })
  | _ => (.null, s1)

/-- The function `extremely_dangerous_gets` (vuln.c:258), run on the standard
input `input`. -/
def extremely_dangerous_gets (input : List Int) : State :=
  let s := State.init input
  let (buffer, s) := decl "buffer" 50 s
  let (_, s) := gets buffer s
  ret 263 s

/-! ## Formatted output -/

/-- An output stream. -/
inductive Stream where
  | out
  | err
  deriving DecidableEq, Repr

/-- The format argument of a formatting call: a string literal, or a variable. -/
inductive Fmt where
  | lit (text : String)
  | var (v : Var)
  deriving DecidableEq, Repr

/-- An argument that follows the format: a string, or an `int`. -/
inductive Arg where
  | str (v : Var)
  | int (n : Int)
  deriving DecidableEq, Repr

/-- The character `%`. -/
def percent : Int := 37

/-- The decimal digits of `n`, most significant first; `fuel` bounds their
number. -/
def digitsOf : Nat → Nat → List Int
  | 0, _ => []
  | fuel + 1, n =>
    if n < 10 then [48 + (n : Int)]
    else digitsOf fuel (n / 10) ++ [48 + ((n % 10 : Nat) : Int)]

/-- What the conversion `%d` writes for `n`. -/
def decimal (n : Int) : List Int :=
  if n < 0 then chr '-' :: digitsOf (n.natAbs + 1) n.natAbs
  else digitsOf (n.natAbs + 1) n.natAbs

/-- The characters of the string that `v` points to; none when `v` points to no
string. -/
def argString (s : State) (v : Var) : List Int :=
  match s.target v.val, cstring (s.cellsOf v.val) with
  | .live, some str => str
  | _, _ => []

/-- The output of a format and the number of its conversions that find no
argument of their kind, from the rest of the format; `pct` tells that the
character before was a `%` that opens a conversion. `%%` writes a `%`, `%s`
the string of its argument, `%d` the decimal form of its argument; any other
character after `%` is counted with the conversions that find no argument (the
literal formats of the corpus have none), and such a conversion writes
nothing. -/
def renderFrom (s : State) : Bool → List Int → List Arg → List Int × Nat
  | false, [], _ => ([], 0)
  | true, [], _ => ([], 1)
  | false, c :: rest, args =>
    if c = percent then renderFrom s true rest args
    else (c :: (renderFrom s false rest args).1, (renderFrom s false rest args).2)
  | true, d :: rest, args =>
    if d = percent then
      (percent :: (renderFrom s false rest args).1, (renderFrom s false rest args).2)
    else if d = chr 's' then
      match args with
      | .str v :: more =>
        (argString s v ++ (renderFrom s false rest more).1, (renderFrom s false rest more).2)
      | _ => ((renderFrom s false rest args).1, (renderFrom s false rest args).2 + 1)
    else if d = chr 'd' then
      match args with
      | .int n :: more =>
        (decimal n ++ (renderFrom s false rest more).1, (renderFrom s false rest more).2)
      | _ => ((renderFrom s false rest args).1, (renderFrom s false rest args).2 + 1)
    else ((renderFrom s false rest args).1, (renderFrom s false rest args).2 + 1)

/-- The output of the format `fmt` with the arguments `args`, and the number of
its conversions that find no argument of their kind. -/
def render (s : State) (fmt : List Int) (args : List Arg) : List Int × Nat :=
  renderFrom s false fmt args

/-- The bytes of the format argument. -/
def formatBytes (fmt : Fmt) (s : State) : List Int :=
  match fmt with
  | .lit text => litBytes text
  | .var v => argString s v

/-- A variable passed as the format is handed to the callee. -/
def useFmt (callee : String) (fmt : Fmt) (s : State) : State :=
  match fmt with
  | .lit _ => s
  | .var v => s.emit (.use v.name (callee ++ ".format") (s.target v.val))

/-- The string arguments are handed to the callee. -/
def useArgs (callee : String) : List Arg → State → State
  | [], s => s
  | .str v :: more, s =>
    useArgs callee more (s.emit (.use v.name (callee ++ ".arg") (s.target v.val)))
  | .int _ :: more, s => useArgs callee more s

/-- Append `bytes` to a stream. -/
def writeTo (stream : Stream) (bytes : List Int) (s : State) : State :=
  match stream with
  | .out => { s with stdout := s.stdout ++ bytes }
  | .err => { s with stderr := s.stderr ++ bytes }

/-- Record the conversions of a call that found no argument, when there are
some. -/
def noteVararg (callee : String) (count : Nat) (s : State) : State :=
  if count = 0 then s else s.emit (.vararg callee count)

/-- A call of `printf` or `fprintf`: the output of the format goes to
`stream`. -/
def fprintfAs (callee : String) (stream : Stream) (fmt : Fmt) (args : List Arg)
    (s : State) : State :=
  noteVararg callee (render s (formatBytes fmt s) args).2
    (writeTo stream (render s (formatBytes fmt s) args).1
      (useArgs callee args (useFmt callee fmt s)))

/-- The call `printf(fmt, args...)`. -/
def printf (fmt : Fmt) (args : List Arg) (s : State) : State :=
  fprintfAs "printf" .out fmt args s

/-- The call `fprintf(stream, fmt, args...)`. -/
def fprintf (stream : Stream) (fmt : Fmt) (args : List Arg) (s : State) : State :=
  fprintfAs "fprintf" stream fmt args s

/-- The call `sprintf(dst, fmt, args...)`: the output of the format and a
terminating null are written to `dst[0]`, `dst[1]`, ..., whatever the capacity
of `dst`. -/
def sprintf (dst : Var) (fmt : Fmt) (args : List Arg) (s : State) : State :=
  let s1 := noteVararg "sprintf" (render s (formatBytes fmt s) args).2
    (useArgs "sprintf" args (useFmt "sprintf" fmt
      (s.emit (.use dst.name "sprintf.dest" (s.target dst.val)))))
  match s.target dst.val with
  | .live =>
    putAll dst 0 ((render s (formatBytes fmt s) args).1 ++ [0])
      (s1.emit (.copy dst.name ((render s (formatBytes fmt s) args).1.length + 1)
        (s.capOf dst.val)))
  | _ => s1

/-- The call `snprintf(dst, n, fmt, args...)`: at most `n - 1` characters of the
output of the format, and a terminating null, are written to `dst[0]`,
`dst[1]`, ...; nothing is written when `n` is 0. -/
def snprintf (dst : Var) (n : Nat) (fmt : Fmt) (args : List Arg) (s : State) : State :=
  let s1 := noteVararg "snprintf" (render s (formatBytes fmt s) args).2
    (useArgs "snprintf" args (useFmt "snprintf" fmt
      (s.emit (.use dst.name "snprintf.dest" (s.target dst.val)))))
  match s.target dst.val with
  | .live =>
    if n = 0 then s1
    else
      putAll dst 0 (((render s (formatBytes fmt s) args).1.take (n - 1)) ++ [0])
        (s1.emit (.copy dst.name (((render s (formatBytes fmt s) args).1.take (n - 1)).length + 1)
          (s.capOf dst.val)))
  | _ => s1

/-! ## Sections 8 and 10 of the corpus: formats -/

/-- The function `format_string_vuln` (vuln.c:242), called with `user_input`
pointing at the string `user_input`. -/
def format_string_vuln (user_input : List Int) : State :=
  let s := State.init []
  let (user_input, s) := param "user_input" user_input s
  let s := printf (.var user_input) [] s
  let s := fprintf .err (.var user_input) [] s
  ret 246 s

/-- The function `safe_format_string` (vuln.c:248), called with `user_input`
pointing at the string `user_input`. -/
def safe_format_string (user_input : List Int) : State :=
  let s := State.init []
  let (user_input, s) := param "user_input" user_input s
  let s := printf (.lit "%s") [.str user_input] s
  let s := fprintf .err (.lit "%s\n") [.str user_input] s
  ret 252 s

/-- The function `unsafe_sprintf` (vuln.c:278). -/
def unsafe_sprintf : State :=
  let s := State.init []
  let (dest, s) := decl "dest" 20 s
  let value : Int := 12345
  let s := sprintf dest (.lit "Value: %d") [.int value] s
  ret 284 s

/-- The function `safe_snprintf` (vuln.c:286). -/
def safe_snprintf : State :=
  let s := State.init []
  let (dest, s) := decl "dest" 20 s
  let value : Int := 12345
  let s := snprintf dest (sizeofArr sizeof_char dest s) (.lit "Value: %d") [.int value] s
  ret 292 s

/-! ## Section 11 of the corpus: the leaderboard -/

/-- The members of one `LeaderboardEntry`: `int score; char name[20];`. -/
structure Entry where
  score : Var
  name : Var
  deriving DecidableEq, Repr

/-- An array of `LeaderboardEntry`. -/
structure Entries where
  name : String
  entries : List Entry
  deriving DecidableEq, Repr

/-- The entries `i`, `i + 1`, ... of the declaration of an array of
`LeaderboardEntry`: for each a block of one `int` for `score` and a block of 20
bytes for `name`. -/
def declEntriesFrom (name : String) : Nat → Nat → State → List Entry × State
  | _, 0, s => ([], s)
  | i, n + 1, s =>
    let (score, s) := decl (name ++ "[" ++ toString i ++ "].score") 1 s
    let (nm, s) := decl (name ++ "[" ++ toString i ++ "].name") 20 s
    let (rest, s) := declEntriesFrom name (i + 1) n s
    ({ score := score, name := nm } :: rest, s)

/-- The declaration `LeaderboardEntry name[n];`. -/
def declEntries (name : String) (n : Nat) (s : State) : Entries × State :=
  ({ name := name, entries := (declEntriesFrom name 0 n s).1 }, (declEntriesFrom name 0 n s).2)

/-- The selection `arr[i]`: recorded always; outside the array there is no
entry, and the members are given the null pointer. -/
def entryAt (arr : Entries) (i : Int) (s : State) : Entry × State :=
  let s1 := s.emit (.index arr.name i arr.entries.length)
  if 0 ≤ i then
    match arr.entries.get? i.toNat with
    | some e => (e, s1)
    | none => ({ score := { name := arr.name, val := .null },
                 name := { name := arr.name, val := .null } }, s1)
  else ({ score := { name := arr.name, val := .null },
          name := { name := arr.name, val := .null } }, s1)

/-- The assignment `v = x;` to the scalar member `v`. -/
def assign (v : Var) (x : Int) (s : State) : State :=
  let s1 := s.emit (.use v.name "assign" (s.target v.val))
  match s.target v.val with
  | .live => put v 0 x s1
  | _ => s1

/-- The function `initialize_leaderboard` (vuln.c:308): its return value and
final state. -/
def initialize_leaderboard (fuel : Nat) : Option (Int × State) :=
  let s := State.init []
  let (board, s) := declEntries "board" 10 s
  (afterLoop
    (forLoop (fun i => decide (i < 10))
      (fun i s =>
        let (e, s) := entryAt board i s
        let s := assign e.score 0 s
        let (e, s) := entryAt board i s
        let s := strcpy e.name "Anonymous" s
        .next s)
      fuel 0 s)
    (fun s => ret 322 s)).map fun s => (0, s)

/-- The selections of array entries of a run: array, index, number of entries. -/
def selections (s : State) : List (String × Int × Nat) :=
  s.log.filterMap fun e =>
    match e with
    | .index v i c => some (v, i, c)
    | _ => none

/-- The conversions of a run that found no argument: callee and count. -/
def varargs (s : State) : List (String × Nat) :=
  s.log.filterMap fun e =>
    match e with
    | .vararg c n => some (c, n)
    | _ => none

/-- The pointer uses of a run: variable and site. -/
def uses (s : State) : List (String × String) :=
  s.log.filterMap fun e =>
    match e with
    | .use v site _ => some (v, site)
    | _ => none

/-- The cells of the block called `name`. -/
def cellsNamed (s : State) (name : String) : List (Option Int) :=
  match s.mem.find? (fun b => b.name == name) with
  | some b => b.cells
  | none => []

/-! ## Auxiliary functions of the proofs -/

/-- A character that ends the scan of `span`. -/
def stops (reject : List Int) (c : Int) : Bool :=
  decide (c = 0 ∨ c ∈ reject)

/-- The cells after the elements `xs` have been written at `i`, `i + 1`, ... -/
def setFrom (cells : List (Option Int)) : Nat → List Int → List (Option Int)
  | _, [] => cells
  | i, x :: xs => setFrom (cells.set i (some x)) (i + 1) xs

/-- The string that the bytes `chars`, followed by a null, hold. -/
def strOf (chars : List Int) : List Int :=
  chars.takeWhile (fun c => !stops [] c)

set_option maxRecDepth 100000

/-! ## Fuel -/

/-- A loop that ends within `n` evaluations of its condition ends the same way
with any larger bound. -/
theorem forLoop_stable (cond : Int → Bool) (body : Int → State → Ctl) :
    ∀ (n : Nat) (i : Int) (s : State), (forLoop cond body n i s).isSome = true →
      ∀ fuel, n ≤ fuel → forLoop cond body fuel i s = forLoop cond body n i s := by
  intro n
  induction n with
  | zero => intro i s h; simp [forLoop] at h
  | succ n ih =>
    intro i s h fuel hle
    obtain ⟨m, rfl⟩ : ∃ m, fuel = m + 1 := ⟨fuel - 1, by omega⟩
    simp only [forLoop] at h ⊢
    by_cases hc : cond i = true
    · simp only [hc, if_true] at h ⊢
      cases hb : body i s with
      | next s1 =>
        simp only [hb] at h ⊢
        exact ih (i + 1) s1 h m (by omega)
      | ret s1 => rfl
    · simp [hc]

/-- The loop of `loop_without_bounds_check` ends within 52 evaluations of its
condition. -/
theorem loop_without_bounds_check_fuel (fuel : Nat) (h : 52 ≤ fuel) :
    loop_without_bounds_check fuel = loop_without_bounds_check 52 := by
  simp only [loop_without_bounds_check, decl]
  rw [forLoop_stable _ _ 52 _ _ (by decide) fuel h]

/-- The loop of `safe_array_access` ends within 101 evaluations of its
condition. -/
theorem safe_array_access_fuel (fuel : Nat) (h : 101 ≤ fuel) :
    safe_array_access fuel = safe_array_access 101 := by
  simp only [safe_array_access, decl]
  rw [forLoop_stable _ _ 101 _ _ (by decide) fuel h]

/-- The loop of `memory_leak_early_return` ends within 52 evaluations of its
condition. -/
theorem memory_leak_early_return_fuel (ok : Bool) (fuel : Nat) (h : 52 ≤ fuel) :
    memory_leak_early_return ok fuel = memory_leak_early_return ok 52 := by
  cases ok
  · rfl
  · simp only [memory_leak_early_return, malloc, eqNull, if_true]
    rw [forLoop_stable _ _ 52 _ _ (by decide) fuel h]

/-! ## Sections 1 and 2: literal copies -/

/-- C1: every `strcpy` of `safe_strcpy_short_literals` and
`safe_strcpy_with_structs` copies a literal whose size, terminating null
included, is the count of its comment (6, 9, 5, 2, 10; 12, 15) and is at most
the capacity of its destination (100, 50, 10, 100, 50; 30, 50); the copies
write 32 and 27 bytes in all, none outside its destination, and no copy is
longer than its destination, which is what the unbounded-copy rule reports. -/
theorem safe_strcpy_literals_fit :
    copies safe_strcpy_short_literals =
        [("buffer", 6, 100), ("name", 9, 50), ("small", 5, 10), ("buffer", 2, 100),
         ("name", 10, 50)] ∧
      copies safe_strcpy_with_structs = [("user.name", 12, 30), ("user.email", 15, 50)] ∧
      [litSize "Hello", litSize "John Doe", litSize "Test", litSize "A", litSize "Anonymous",
        litSize "Alice Smith", litSize "alice@test.com"] = [6, 9, 5, 2, 10, 12, 15] ∧
      (∀ c ∈ copies safe_strcpy_short_literals ++ copies safe_strcpy_with_structs,
        c.2.1 ≤ c.2.2) ∧
      (stores safe_strcpy_short_literals).length = 32 ∧
      (stores safe_strcpy_with_structs).length = 27 ∧
      oobStores safe_strcpy_short_literals = [] ∧
      oobStores safe_strcpy_with_structs = [] ∧
      overlongCopies safe_strcpy_short_literals = [] ∧
      overlongCopies safe_strcpy_with_structs = [] := by
  decide

/-- C2: the one `strcpy` of `unsafe_strcpy_literal_too_long` copies 43 bytes,
terminating null included, into the 10 bytes of `tiny`: the bytes 10 to 42 are
written past the end of `tiny`. It is the only copy of the function and the
only one longer than its destination, and the function has no other
violation: no null or freed pointer is used and nothing is allocated. -/
theorem unsafe_literal_overflows_tiny :
    copies unsafe_strcpy_literal_too_long = [("tiny", 43, 10)] ∧
      overlongCopies unsafe_strcpy_literal_too_long = [("tiny", 43, 10)] ∧
      (stores unsafe_strcpy_literal_too_long).length = 43 ∧
      oobStores unsafe_strcpy_literal_too_long =
        (List.range 33).map (fun (j : Nat) => ("tiny", ((j + 10 : Nat) : Int), 10)) ∧
      nullDerefs unsafe_strcpy_literal_too_long = [] ∧
      usesAfterFree unsafe_strcpy_literal_too_long = [] ∧
      doubleFrees unsafe_strcpy_literal_too_long = [] ∧
      leaked unsafe_strcpy_literal_too_long = [] := by
  decide

/-- C3: the literal that `unsafe_strcpy_literal_too_long` passes to `strcpy`
occupies 43 bytes, not the 26 of its comment; the destination `tiny` has 10. -/
theorem unsafe_literal_size_is_43 :
    litSize "This string is way too long for the buffer" = 43 ∧
      copies unsafe_strcpy_literal_too_long = [("tiny", 43, 10)] ∧
      (copies unsafe_strcpy_literal_too_long).map (fun c => c.2.1) ≠ [26] := by
  decide

/-! ## Sections 3 and 4: array indices -/

/-- C4: the constant-index writes of `array_declarations`,
`array_out_of_bounds` and `safe_array_access` (the latter after the 100 writes of its loop, which
ends for every bound of at least 101 evaluations of its condition): the index
is at or beyond the capacity exactly for `arr[10]`, `arr[15]` (capacity 10),
`buf[20]` and `buf[25]` (capacity 20); `name[0]`, `numbers[0]`, `values[0]`,
`values[50]` and `values[99]` are in bounds. -/
theorem constant_index_writes (fuel : Nat) (h : 101 ≤ fuel) :
    stores array_declarations = [("name", 0, 20), ("numbers", 0, 100)] ∧
      oobStores array_declarations = [] ∧
      stores array_out_of_bounds =
        [("arr", 10, 10), ("arr", 15, 10), ("buf", 20, 20), ("buf", 25, 20)] ∧
      oobStores array_out_of_bounds =
        [("arr", 10, 10), ("arr", 15, 10), ("buf", 20, 20), ("buf", 25, 20)] ∧
      ∃ s, safe_array_access fuel = some s ∧
        (stores s).length = 103 ∧
        (stores s).drop 100 = [("values", 0, 100), ("values", 50, 100), ("values", 99, 100)] ∧
        oobStores s = [] := by
  rw [safe_array_access_fuel fuel h]
  refine ⟨by decide, by decide, by decide, by decide, ?_⟩
  cases hs : safe_array_access 101 with
  | none => exact absurd hs (by decide)
  | some s =>
    have hd1 : (safe_array_access 101).map (fun s => (stores s).length) = some 103 := by decide
    have hd2 : (safe_array_access 101).map (fun s => (stores s).drop 100) =
        some [("values", 0, 100), ("values", 50, 100), ("values", 99, 100)] := by decide
    have hd3 : (safe_array_access 101).map oobStores = some [] := by decide
    rw [hs] at hd1 hd2 hd3
    simp only [Option.map_some', Option.some.injEq] at hd1 hd2 hd3
    exact ⟨s, rfl, hd1, hd2, hd3⟩

/-- Witness of `constant_index_writes` with a bound of 101. -/
theorem constant_index_writes_witness :
    101 ≤ 101 ∧
      ∃ s, safe_array_access 101 = some s ∧
        (stores s).length = 103 ∧
        (stores s).drop 100 = [("values", 0, 100), ("values", 50, 100), ("values", 99, 100)] ∧
        oobStores s = [] :=
  ⟨by decide, (constant_index_writes 101 (by decide)).2.2.2.2⟩

/-- C5: the loop of `loop_without_bounds_check` runs its body 51 times, with
`i` from 0 to 50, writing `data[i] = i * 2`; the only write outside the 50
elements of `data` is the last one, at `i = 50`, and the 50 writes before it
are performed. The loop of `safe_array_access` runs its body 100 times, with
`i` from 0 to 99, and no write of the function is outside `values`. Both hold
for every bound that lets the loop end. -/
theorem loop_index_writes (fuel1 fuel2 : Nat) (h1 : 52 ≤ fuel1) (h2 : 101 ≤ fuel2) :
    (∃ s, loop_without_bounds_check fuel1 = some s ∧
        stores s = (List.range 51).map (fun (i : Nat) => ("data", (i : Int), 50)) ∧
        oobStores s = [("data", 50, 50)] ∧
        s.cellsOf (.addr 0) = (List.range 50).map (fun (i : Nat) => some ((i : Int) * 2))) ∧
      ∃ s, safe_array_access fuel2 = some s ∧
        (stores s).take 100 = (List.range 100).map (fun (i : Nat) => ("values", (i : Int), 100)) ∧
        oobStores s = [] := by
  rw [loop_without_bounds_check_fuel fuel1 h1, safe_array_access_fuel fuel2 h2]
  constructor
  · cases hs : loop_without_bounds_check 52 with
    | none => exact absurd hs (by decide)
    | some s =>
      have hd1 : (loop_without_bounds_check 52).map stores =
          some ((List.range 51).map (fun (i : Nat) => ("data", (i : Int), 50))) := by decide
      have hd2 : (loop_without_bounds_check 52).map oobStores = some [("data", 50, 50)] := by
        decide
      have hd3 : (loop_without_bounds_check 52).map (fun s => s.cellsOf (.addr 0)) =
          some ((List.range 50).map (fun (i : Nat) => some ((i : Int) * 2))) := by decide
      rw [hs] at hd1 hd2 hd3
      simp only [Option.map_some', Option.some.injEq] at hd1 hd2 hd3
      exact ⟨s, rfl, hd1, hd2, hd3⟩
  · cases hs : safe_array_access 101 with
    | none => exact absurd hs (by decide)
    | some s =>
      refine ⟨s, rfl, ?_⟩
      have hd : (safe_array_access 101).map (fun s => ((stores s).take 100, oobStores s)) =
          some ((List.range 100).map (fun (i : Nat) => ("values", (i : Int), 100)), []) := by decide
      rw [hs] at hd
      simp only [Option.map_some', Option.some.injEq, Prod.mk.injEq] at hd
      exact hd

/-- Witness of `loop_index_writes` with the bounds 52 and 101. -/
theorem loop_index_writes_witness :
    52 ≤ 52 ∧ 101 ≤ 101 ∧
      (∃ s, loop_without_bounds_check 52 = some s ∧
        stores s = (List.range 51).map (fun (i : Nat) => ("data", (i : Int), 50)) ∧
        oobStores s = [("data", 50, 50)] ∧
        s.cellsOf (.addr 0) = (List.range 50).map (fun (i : Nat) => some ((i : Int) * 2))) :=
  ⟨by decide, by decide, (loop_index_writes 52 101 (by decide) (by decide)).1⟩

/-! ## Sections 5, 6 and 7: the heap -/

/-- C6: the lifecycle tracker, run from `Uninitialized` over the statements of
`double_free_bug`, ends in `Freed` with exactly one finding, the double free
of `data`, and no use of a freed pointer; over `use_after_free_bug` it ends in
`Freed` with exactly two findings, the use of `ptr` as the `printf` argument
and as the `strcpy` destination after the `free`, and no double free. This
holds for either outcome of `malloc`; when `malloc` succeeds the machine
itself frees a freed block once in the first function and uses a freed block
at those two sites in the second. -/
theorem lifecycle_of_free_bugs :
    (∀ ok : Bool,
      lifecycle "data" .Uninitialized (double_free_bug ok).log =
          (.Freed, [{ rule := .doubleFree, var := "data", site := "free" }]) ∧
        lifecycle "ptr" .Uninitialized (use_after_free_bug ok).log =
          (.Freed, [{ rule := .useAfterFree, var := "ptr", site := "printf.arg" },
                    { rule := .useAfterFree, var := "ptr", site := "strcpy.dest" }])) ∧
      doubleFrees (double_free_bug true) = ["data"] ∧
      usesAfterFree (double_free_bug true) = [] ∧
      usesAfterFree (use_after_free_bug true) = [("ptr", "printf.arg"), ("ptr", "strcpy.dest")] ∧
      doubleFrees (use_after_free_bug true) = [] := by
  decide

/-- C7: when its first `malloc` returns `NULL`, `safe_pointer_usage` hands the
null pointer to `strcpy`, and likewise for the second; whatever the outcomes,
both `strcpy` calls use `ptr` with no null test since its `malloc`. The rest
holds for all outcomes: the lifecycle tracker ends in `Freed` with no finding,
no block is used or freed after its `free`, none is left allocated, and no
copy is longer than its 50 bytes. -/
theorem safe_pointer_usage_null_deref :
    nullDerefs (safe_pointer_usage false true) = [("ptr", "strcpy.dest")] ∧
      nullDerefs (safe_pointer_usage true false) = [("ptr", "strcpy.dest")] ∧
      ∀ ok1 ok2 : Bool,
        uncheckedUses (safe_pointer_usage ok1 ok2) =
            [("ptr", "strcpy.dest"), ("ptr", "strcpy.dest")] ∧
          lifecycle "ptr" .Uninitialized (safe_pointer_usage ok1 ok2).log = (.Freed, []) ∧
          usesAfterFree (safe_pointer_usage ok1 ok2) = [] ∧
          doubleFrees (safe_pointer_usage ok1 ok2) = [] ∧
          leaked (safe_pointer_usage ok1 ok2) = [] ∧
          overlongCopies (safe_pointer_usage ok1 ok2) = [] ∧
          oobStores (safe_pointer_usage ok1 ok2) = [] := by
  decide

/-- C8: when `malloc` succeeds, `memory_leak_no_free` returns at the end of its
body (line 147) with `data` still allocated, and `memory_leak_early_return`
returns at the `return` inside its loop (line 162), right after the write of
`numbers[50]`, with `numbers` still allocated and no `free` executed.
`correct_memory_management` leaves nothing allocated: when `malloc` fails it
returns at line 173 with a null `buffer` and calls no `free`; when it succeeds
it returns at line 180 after exactly one `free`, of a live block. -/
theorem leaked_allocations (fuel : Nat) (h : 52 ≤ fuel) :
    (exits (memory_leak_no_free true) = [147] ∧ leaked (memory_leak_no_free true) = ["data"]) ∧
      (∃ s, memory_leak_early_return true fuel = some s ∧
        exits s = [162] ∧ leaked s = ["numbers"] ∧ frees s = [] ∧
        (stores s).getLast? = some ("numbers", 50, 100)) ∧
      (exits (correct_memory_management false) = [173] ∧
        leaked (correct_memory_management false) = [] ∧
        frees (correct_memory_management false) = [] ∧
        nullDerefs (correct_memory_management false) = []) ∧
      (exits (correct_memory_management true) = [180] ∧
        leaked (correct_memory_management true) = [] ∧
        frees (correct_memory_management true) = [("buffer", .live)]) := by
  rw [memory_leak_early_return_fuel true fuel h]
  refine ⟨by decide, ?_, by decide, by decide⟩
  cases hs : memory_leak_early_return true 52 with
  | none => exact absurd hs (by decide)
  | some s =>
    have hd1 : (memory_leak_early_return true 52).map exits = some [162] := by decide
    have hd2 : (memory_leak_early_return true 52).map leaked = some ["numbers"] := by decide
    have hd3 : (memory_leak_early_return true 52).map frees = some [] := by decide
    have hd4 : (memory_leak_early_return true 52).map (fun s => (stores s).getLast?) =
        some (some ("numbers", 50, 100)) := by decide
    rw [hs] at hd1 hd2 hd3 hd4
    simp only [Option.map_some', Option.some.injEq] at hd1 hd2 hd3 hd4
    exact ⟨s, rfl, hd1, hd2, hd3, by rw [hd4]⟩

/-- Witness of `leaked_allocations` with a bound of 52. -/
theorem leaked_allocations_witness :
    52 ≤ 52 ∧
      ∃ s, memory_leak_early_return true 52 = some s ∧
        exits s = [162] ∧ leaked s = ["numbers"] ∧ frees s = [] ∧
        (stores s).getLast? = some ("numbers", 50, 100) :=
  ⟨by decide, (leaked_allocations 52 (by decide)).2.1⟩

/-- C9: in `null_pointer_deref_no_check` both uses of `buffer`, as the `strcpy`
destination and in `buffer[0]`, come with no null test of `buffer` since its
`malloc`, and both dereference `NULL` when `malloc` fails. In
`null_pointer_safe` no use of `buffer` is unchecked and none dereferences
`NULL`, for either outcome; when `malloc` succeeds the block is freed once,
before the return, and nothing is left allocated. -/
theorem null_checks :
    (∀ ok : Bool, uncheckedUses (null_pointer_deref_no_check ok) =
        [("buffer", "strcpy.dest"), ("buffer", "index")]) ∧
      nullDerefs (null_pointer_deref_no_check false) =
        [("buffer", "strcpy.dest"), ("buffer", "index")] ∧
      (∀ ok : Bool, uncheckedUses (null_pointer_safe ok) = [] ∧
        nullDerefs (null_pointer_safe ok) = [] ∧
        usesAfterFree (null_pointer_safe ok) = [] ∧
        leaked (null_pointer_safe ok) = [] ∧
        exits (null_pointer_safe ok) = [236]) ∧
      frees (null_pointer_safe true) = [("buffer", .live)] ∧
      (null_pointer_safe true).log.getLast? = some (.ret 236) ∧
      (null_pointer_safe true).log.dropLast.getLast? = some (.free "buffer" .live) := by
  decide

/-! ## Section 9: bounded input -/

/-- One in-range element write on a machine with a single block. -/
theorem put_single (nm : String) (rg : Region) (cap : Nat) (cells : List (Option Int))
    (log : List Event) (si so se : List Int) (v : String) (i : Nat) (x : Int) (h : i < cap) :
    put ⟨v, .addr 0⟩ (i : Int) x ⟨[⟨nm, rg, cap, false, cells⟩], log, si, so, se⟩ =
      ⟨[⟨nm, rg, cap, false, cells.set i (some x)⟩], log ++ [.store v i cap], si, so, se⟩ := by
  simp [put, State.emit, State.capOf, poke, h]

/-- A run of in-range element writes on a machine with a single block: the
cells are those of `setFrom` and one write is recorded per element. -/
theorem putAll_single (nm : String) (rg : Region) (cap : Nat) (si so se : List Int) (v : String) :
    ∀ (xs : List Int) (i : Nat) (cells : List (Option Int)) (log : List Event),
      i + xs.length ≤ cap →
      putAll ⟨v, .addr 0⟩ (i : Int) xs ⟨[⟨nm, rg, cap, false, cells⟩], log, si, so, se⟩ =
        ⟨[⟨nm, rg, cap, false, setFrom cells i xs⟩],
         log ++ (List.range xs.length).map (fun (j : Nat) => Event.store v ((i + j : Nat) : Int) cap),
         si, so, se⟩ := by
  intro xs
  induction xs with
  | nil => intro i cells log _; simp [putAll, setFrom]
  | cons x xs ih =>
    intro i cells log h
    simp only [List.length_cons] at h
    simp only [putAll]
    rw [put_single _ _ _ _ _ _ _ _ _ _ _ (by omega)]
    have := ih (i + 1) (cells.set i (some x)) (log ++ [.store v i cap]) (by omega)
    simp only [Nat.cast_add, Nat.cast_one] at this ⊢
    rw [this]
    simp only [setFrom, List.length_cons, List.range_succ_eq_map, List.map_cons, List.map_map,
      List.append_assoc, List.singleton_append]
    congr 2
    simp only [Function.comp_def, List.map_inj_left, Nat.cast_add, Nat.cast_one, Nat.cast_zero,
      add_zero, List.cons.injEq, true_and]
    intro a _
    congr 1
    omega

/-- Writing `xs` right after the written prefix `pre` of a block whose other
`m` cells are indeterminate. -/
theorem setFrom_fresh : ∀ (xs : List Int) (pre : List (Option Int)) (m : Nat), xs.length ≤ m →
    setFrom (pre ++ List.replicate m none) pre.length xs =
      pre ++ xs.map some ++ List.replicate (m - xs.length) none := by
  intro xs
  induction xs with
  | nil => intro pre m _; simp [setFrom]
  | cons x xs ih =>
    intro pre m h
    simp only [List.length_cons] at h
    obtain ⟨m, rfl⟩ : ∃ k, m = k + 1 := ⟨m - 1, by omega⟩
    simp only [setFrom]
    have h1 : (pre ++ List.replicate (m + 1) none).set pre.length (some x) =
        (pre ++ [some x]) ++ List.replicate m none := by
      simp [List.replicate_succ, List.set_append_right]
    rw [h1]
    have := ih (pre ++ [some x]) m (by omega)
    simp only [List.length_append, List.length_singleton] at this
    rw [this]
    simp

/-- On a null-terminated string `span` returns the length of its longest prefix
with no null and no rejected character. -/
theorem span_terminated (reject : List Int) : ∀ (chars : List Int) (rest : List (Option Int)),
    span reject ((chars ++ [0]).map some ++ rest) =
      some (chars.takeWhile (fun c => !stops reject c)).length := by
  intro chars
  induction chars with
  | nil => intro rest; simp [span]
  | cons c cs ih =>
    intro rest
    have ih1 := ih rest
    simp only [List.map_append, List.map_cons, List.map_nil, List.cons_append,
      List.append_assoc, List.nil_append] at ih1 ⊢
    by_cases hc : c = 0 ∨ c ∈ reject
    · have hs : stops reject c = true := by simp [stops, hc]
      simp only [span, if_pos hc, List.takeWhile_cons, hs, Bool.not_true]
      rfl
    · have hs : stops reject c = false := by simp [stops, hc]
      simp only [span, if_neg hc, List.takeWhile_cons, hs, Bool.not_false, if_true, ih1,
        Option.map_some', List.length_cons]

/-- Writing a null where `span` stopped leaves that prefix as the string. -/
theorem cstring_cut (reject : List Int) : ∀ (chars : List Int) (rest : List (Option Int)),
    cstring (((chars ++ [0]).map some ++ rest).set
        (chars.takeWhile (fun c => !stops reject c)).length (some 0)) =
      some (chars.takeWhile (fun c => !stops reject c)) := by
  intro chars
  induction chars with
  | nil => intro rest; simp [cstring]
  | cons c cs ih =>
    intro rest
    have ih1 := ih rest
    simp only [List.map_append, List.map_cons, List.map_nil, List.cons_append,
      List.append_assoc, List.nil_append] at ih1 ⊢
    by_cases hc : c = 0 ∨ c ∈ reject
    · have hs : stops reject c = true := by simp [stops, hc]
      simp [cstring, List.takeWhile_cons, hs]
    · have hs : stops reject c = false := by simp [stops, hc]
      have hc0 : c ≠ 0 := fun h => hc (Or.inl h)
      simp only [List.takeWhile_cons, hs, Bool.not_false, if_true, List.length_cons,
        List.set_cons_succ, cstring, if_neg hc0, ih1, Option.map_some']

/-- The prefix `span` measures has no rejected character. -/
theorem not_mem_cut (reject : List Int) (chars : List Int) (c : Int) (h : c ∈ reject) :
    c ∉ chars.takeWhile (fun c => !stops reject c) := by
  intro hm
  have := List.mem_takeWhile_imp hm
  simp [stops, h] at this

/-- The call `fgets` takes at most as many characters as it is allowed. -/
theorem fgetsChars_length : ∀ (k : Nat) (input : List Int), (fgetsChars k input).length ≤ k := by
  intro k
  induction k with
  | zero => intro input; simp [fgetsChars]
  | succ k ih =>
    intro input
    cases input with
    | nil => simp [fgetsChars]
    | cons c cs =>
      simp only [fgetsChars]
      split
      · simp
      · simp only [List.length_cons]; have := ih cs; omega

/-- The prefix `span` measures is no longer than the string. -/
theorem length_cut_le (reject : List Int) : ∀ (chars : List Int),
    (chars.takeWhile (fun c => !stops reject c)).length ≤ chars.length := by
  intro chars
  induction chars with
  | nil => simp
  | cons c cs ih =>
    simp only [List.takeWhile_cons]
    split
    · simp only [List.length_cons]; omega
    · simp

/-- The run of `safe_input_alternative` at the end of the input. -/
theorem safe_input_alternative_eof :
    safe_input_alternative [] = some ⟨[⟨"buffer", .stack, 50, false, List.replicate 50 none⟩],
      [.use "buffer" "fgets.dest" .live, .ret 272], [], [], []⟩ := by
  decide

/-- The call `fgets(buffer, 50, stdin)` of `safe_input_alternative` on a
non-empty input. -/
theorem fgets_read (input : List Int) (h : input ≠ []) :
    fgets ⟨"buffer", .addr 0⟩ 50
        ⟨[⟨"buffer", .stack, 50, false, List.replicate 50 none⟩], [], input, [], []⟩ =
      (.addr 0,
       ⟨[⟨"buffer", .stack, 50, false,
          (fgetsChars 49 input ++ [0]).map some ++
            List.replicate (50 - (fgetsChars 49 input ++ [0]).length) none⟩],
        [.use "buffer" "fgets.dest" .live] ++
          (List.range (fgetsChars 49 input ++ [0]).length).map
            (fun (j : Nat) => Event.store "buffer" ((0 + j : Nat) : Int) 50),
        input.drop (fgetsChars 49 input).length, [], []⟩) := by
  have hlen := fgetsChars_length 49 input
  have hput := putAll_single "buffer" .stack 50 (input.drop (fgetsChars 49 input).length) [] []
    "buffer" (fgetsChars 49 input ++ [0]) 0 (List.replicate 50 none)
    [.use "buffer" "fgets.dest" .live]
    (by simp only [List.length_append, List.length_singleton]; omega)
  have hfresh := setFrom_fresh (fgetsChars 49 input ++ [0]) [] 50
    (by simp only [List.length_append, List.length_singleton]; omega)
  simp only [List.nil_append, List.length_nil] at hfresh
  rw [hfresh] at hput
  have hn : ¬ ((50 : Nat) = 0 ∨ input = []) := by simp [h]
  simp only [fgets, State.target, State.emit, List.get?_cons_zero, List.nil_append,
    Bool.false_eq_true, if_false, if_neg hn]
  exact congrArg (Prod.mk (Ptr.addr 0)) hput

/-- The run of `safe_input_alternative` on a non-empty input. -/
theorem safe_input_alternative_read (input : List Int) (h : input ≠ []) :
    safe_input_alternative input =
      some ⟨[⟨"buffer", .stack, 50, false,
              (((fgetsChars 49 input ++ [0]).map some ++
                List.replicate (50 - (fgetsChars 49 input ++ [0]).length) none).set
                ((fgetsChars 49 input).takeWhile (fun c => !stops [newline] c)).length (some 0))⟩],
            [.use "buffer" "fgets.dest" .live] ++
              (List.range (fgetsChars 49 input ++ [0]).length).map
                (fun (j : Nat) => Event.store "buffer" ((0 + j : Nat) : Int) 50) ++
              [.use "buffer" "strcspn.arg" .live] ++ [.use "buffer" "index" .live] ++
              [.store "buffer" (((fgetsChars 49 input).takeWhile
                  (fun c => !stops [newline] c)).length : Nat) 50] ++
              [.ret 272],
            input.drop (fgetsChars 49 input).length, [], []⟩ := by
  have hlen := fgetsChars_length 49 input
  have hk := length_cut_le [newline] (fgetsChars 49 input)
  have hspan := span_terminated [newline] (fgetsChars 49 input)
    (List.replicate (50 - (fgetsChars 49 input ++ [0]).length) none)
  have hlit : litBytes "\n" = [newline] := by decide
  have hdecl : decl "buffer" 50 (State.init input) =
      (⟨"buffer", .addr 0⟩,
       ⟨[⟨"buffer", .stack, 50, false, List.replicate 50 none⟩], [], input, [], []⟩) := rfl
  have hsz : sizeofArr sizeof_char ⟨"buffer", .addr 0⟩
      ⟨[⟨"buffer", .stack, 50, false, List.replicate 50 none⟩], [], input, [], []⟩ = 50 := rfl
  simp only [safe_input_alternative, hdecl, hsz, fgets_read input h]
  simp only [strcspn, State.target, State.cellsOf, State.emit, List.get?_cons_zero,
    Bool.false_eq_true, if_false, hlit, hspan, ne_eq, reduceCtorEq, not_false_eq_true, if_true,
    store]
  rw [put_single _ _ _ _ _ _ _ _ _ _ _ (by omega)]
  rfl

/-- The element writes among a run of recorded element writes. -/
theorem filterMap_store_events (v : String) (cap n : Nat) :
    (((List.range n).map (fun (j : Nat) => Event.store v ((0 + j : Nat) : Int) cap)).filterMap
      fun e =>
        match e with
        | .store v i c => some (v, i, c)
        | _ => none) =
      (List.range n).map (fun (j : Nat) => (v, (j : Int), cap)) := by
  rw [List.filterMap_map]
  simp only [Function.comp_def, Nat.zero_add]
  show List.filterMap (some ∘ fun (j : Nat) => (v, (j : Int), cap)) (List.range n) = _
  rw [List.filterMap_eq_map]

/-- C10: for every standard input `safe_input_alternative` returns and none of
its writes is outside the 50 bytes of `buffer`. `fgets` takes at most 49
characters; at the end of the input it stores nothing and the function writes
nothing. Otherwise `fgets` stores the characters and a null at the indices
`0 .. length`, the index `k` returned by `strcspn` is the length of the longest
prefix of the stored characters that has neither a null nor a newline, so
`k <= length <= 49`, the last write is `buffer[k]`, and afterwards `buffer`
holds that prefix as its string, which contains no newline. -/
theorem safe_input_alternative_in_bounds (input : List Int) :
    ∃ s, safe_input_alternative input = some s ∧
      oobStores s = [] ∧
      (fgetsChars 49 input).length ≤ 49 ∧
      (input = [] → stores s = []) ∧
      (input ≠ [] → ∃ k : Nat,
          stores s = (List.range ((fgetsChars 49 input).length + 1)).map
              (fun (j : Nat) => ("buffer", (j : Int), 50)) ++ [("buffer", (k : Int), 50)] ∧
          k ≤ (fgetsChars 49 input).length ∧ k ≤ 49 ∧
          ∃ str, cstring (s.cellsOf (.addr 0)) = some str ∧ newline ∉ str ∧
            str = (fgetsChars 49 input).takeWhile (fun c => !stops [newline] c) ∧
            k = str.length) := by
  have hlen := fgetsChars_length 49 input
  by_cases h : input = []
  · subst h
    rw [safe_input_alternative_eof]
    exact ⟨_, rfl, by decide, by decide, fun _ => by decide, fun h => absurd rfl h⟩
  · have hk := length_cut_le [newline] (fgetsChars 49 input)
    have hst : stores ⟨[⟨"buffer", .stack, 50, false,
              (((fgetsChars 49 input ++ [0]).map some ++
                List.replicate (50 - (fgetsChars 49 input ++ [0]).length) none).set
                ((fgetsChars 49 input).takeWhile (fun c => !stops [newline] c)).length (some 0))⟩],
            [.use "buffer" "fgets.dest" .live] ++
              (List.range (fgetsChars 49 input ++ [0]).length).map
                (fun (j : Nat) => Event.store "buffer" ((0 + j : Nat) : Int) 50) ++
              [.use "buffer" "strcspn.arg" .live] ++ [.use "buffer" "index" .live] ++
              [.store "buffer" (((fgetsChars 49 input).takeWhile
                  (fun c => !stops [newline] c)).length : Nat) 50] ++
              [.ret 272],
            input.drop (fgetsChars 49 input).length, [], []⟩ =
        (List.range ((fgetsChars 49 input).length + 1)).map
              (fun (j : Nat) => ("buffer", (j : Int), 50)) ++
          [("buffer", ((((fgetsChars 49 input).takeWhile
                  (fun c => !stops [newline] c)).length : Nat) : Int), 50)] := by
      simp only [stores, List.filterMap_append, filterMap_store_events]
      simp only [List.filterMap_cons, List.filterMap_nil, List.nil_append, List.append_nil,
        List.length_append, List.length_singleton]
    rw [safe_input_alternative_read input h]
    refine ⟨_, rfl, ?_, hlen, fun h1 => absurd h1 h, fun _ => ⟨_, hst, hk, by omega,
      (fgetsChars 49 input).takeWhile (fun c => !stops [newline] c), ?_, ?_, rfl, rfl⟩⟩
    · simp only [oobStores, hst, List.filter_eq_nil_iff, List.mem_append, List.mem_map,
        List.mem_range, List.mem_singleton]
      rintro w (⟨j, hj, rfl⟩ | rfl) <;> simp [inBounds] <;> omega
    · exact cstring_cut [newline] (fgetsChars 49 input) _
    · exact not_mem_cut [newline] (fgetsChars 49 input) newline (by simp)

/-- Witness of `safe_input_alternative_in_bounds` on the input line `hi`. -/
theorem safe_input_alternative_in_bounds_witness :
    ∃ s, safe_input_alternative [104, 105, 10] = some s ∧
      oobStores s = [] ∧
      (fgetsChars 49 [104, 105, 10]).length ≤ 49 ∧
      (([104, 105, 10] : List Int) = [] → stores s = []) ∧
      (([104, 105, 10] : List Int) ≠ [] → ∃ k : Nat,
          stores s = (List.range ((fgetsChars 49 [104, 105, 10]).length + 1)).map
              (fun (j : Nat) => ("buffer", (j : Int), 50)) ++ [("buffer", (k : Int), 50)] ∧
          k ≤ (fgetsChars 49 [104, 105, 10]).length ∧ k ≤ 49 ∧
          ∃ str, cstring (s.cellsOf (.addr 0)) = some str ∧ newline ∉ str ∧
            str = (fgetsChars 49 [104, 105, 10]).takeWhile (fun c => !stops [newline] c) ∧
            k = str.length) :=
  safe_input_alternative_in_bounds [104, 105, 10]

/-! ## Copies from a variable source, and `gets` -/

/-- An element write records one store event. -/
theorem put_log (v : Var) (i x : Int) (s : State) :
    (put v i x s).log = s.log ++ [.store v.name i (s.capOf v.val)] := by
  unfold put
  cases hv : v.val with
  | null => simp [State.emit]
  | addr b =>
    simp only [State.emit]
    split <;> rfl

/-- The blocks of the memory after a cell of block `b` has been written. -/
theorem poke_get? (mem : List Block) (b i : Nat) (x : Int) (b1 : Nat) :
    (poke mem b i x).get? b1 =
      if b1 = b then (mem.get? b).map (fun blk => { blk with cells := blk.cells.set i (some x) })
      else mem.get? b1 := by
  unfold poke
  cases hb : mem.get? b with
  | none =>
    by_cases h : b1 = b
    · subst h; simp only [hb, if_true, Option.map_none']
    · simp only [if_neg h]
  | some blk =>
    simp only [List.get?_eq_getElem?] at hb ⊢
    rw [List.getElem?_set]
    by_cases h : b = b1
    · subst h
      have hlt : b < mem.length := by
        by_contra hc
        rw [List.getElem?_eq_none (by omega)] at hb
        cases hb
      simp [hlt]
    · have h1 : ¬ b1 = b := fun e => h e.symm
      simp [h, h1]

/-- An element write leaves the memory as it is or writes one cell. -/
theorem put_mem (v : Var) (i x : Int) (s : State) :
    (put v i x s).mem = s.mem ∨
      ∃ b k, v.val = .addr b ∧ (put v i x s).mem = poke s.mem b k x := by
  unfold put
  cases hv : v.val with
  | null => left; rfl
  | addr b =>
    simp only [State.emit]
    split
    · right; exact ⟨b, i.toNat, rfl, rfl⟩
    · left; rfl

/-- An element write changes no capacity. -/
theorem put_capOf (v : Var) (i x : Int) (s : State) (p : Ptr) :
    (put v i x s).capOf p = s.capOf p := by
  cases p with
  | null => rfl
  | addr b1 =>
    simp only [State.capOf]
    rcases put_mem v i x s with h | ⟨b, k, _, h⟩
    · rw [h]
    · rw [h, poke_get?]
      by_cases e : b1 = b
      · subst e
        cases s.mem.get? b1 <;> simp
      · simp only [if_neg e]

/-- An element write changes no lifetime. -/
theorem put_target (v : Var) (i x : Int) (s : State) (p : Ptr) :
    (put v i x s).target p = s.target p := by
  cases p with
  | null => rfl
  | addr b1 =>
    simp only [State.target]
    rcases put_mem v i x s with h | ⟨b, k, _, h⟩
    · rw [h]
    · rw [h, poke_get?]
      by_cases e : b1 = b
      · subst e
        cases s.mem.get? b1 <;> simp
      · simp only [if_neg e]

/-- An element write changes the cells of no other block. -/
theorem put_cellsOf_ne (v : Var) (i x : Int) (s : State) (p : Ptr) (hp : v.val ≠ p) :
    (put v i x s).cellsOf p = s.cellsOf p := by
  cases p with
  | null => rfl
  | addr b1 =>
    simp only [State.cellsOf]
    rcases put_mem v i x s with h | ⟨b, k, hv, h⟩
    · rw [h]
    · have e : ¬ b1 = b := by
        intro e; apply hp; rw [hv, e]
      rw [h, poke_get?, if_neg e]

/-- An element write leaves the streams as they are. -/
theorem put_io (v : Var) (i x : Int) (s : State) :
    (put v i x s).stdin = s.stdin ∧ (put v i x s).stdout = s.stdout ∧
      (put v i x s).stderr = s.stderr := by
  unfold put
  cases hv : v.val with
  | null => simp [State.emit]
  | addr b =>
    simp only [State.emit]
    split <;> simp

/-- A run of element writes records one store event per element, in order. -/
theorem putAll_log (v : Var) : ∀ (xs : List Int) (i : Nat) (s : State),
    (putAll v (i : Int) xs s).log =
      s.log ++ (List.range xs.length).map
        (fun (j : Nat) => Event.store v.name ((i + j : Nat) : Int) (s.capOf v.val)) := by
  intro xs
  induction xs with
  | nil => intro i s; simp [putAll]
  | cons x xs ih =>
    intro i s
    simp only [putAll]
    have := ih (i + 1) (put v i x s)
    simp only [Nat.cast_add, Nat.cast_one] at this
    rw [this, put_log, put_capOf]
    simp only [List.length_cons, List.range_succ_eq_map, List.map_cons, List.map_map,
      List.append_assoc, List.singleton_append, Nat.cast_add, Nat.cast_zero, add_zero]
    congr 2
    simp only [Function.comp_def, List.map_inj_left, Nat.cast_add, Nat.cast_one]
    intro a _
    congr 1
    omega

/-- A run of element writes changes no capacity, no lifetime, no other block and no stream. -/
theorem putAll_frame (v : Var) : ∀ (xs : List Int) (i : Int) (s : State),
    (∀ p, (putAll v i xs s).capOf p = s.capOf p) ∧
      (∀ p, (putAll v i xs s).target p = s.target p) ∧
      (∀ p, v.val ≠ p → (putAll v i xs s).cellsOf p = s.cellsOf p) ∧
      (putAll v i xs s).stdin = s.stdin ∧ (putAll v i xs s).stdout = s.stdout ∧
      (putAll v i xs s).stderr = s.stderr := by
  intro xs
  induction xs with
  | nil => intro i s; simp [putAll]
  | cons x xs ih =>
    intro i s
    simp only [putAll]
    obtain ⟨h1, h2, h3, h4, h5, h6⟩ := ih (i + 1) (put v i x s)
    obtain ⟨g4, g5, g6⟩ := put_io v i x s
    refine ⟨fun p => ?_, fun p => ?_, fun p hp => ?_, ?_, ?_, ?_⟩
    · rw [h1, put_capOf]
    · rw [h2, put_target]
    · rw [h3 p hp, put_cellsOf_ne v i x s p hp]
    · rw [h4, g4]
    · rw [h5, g5]
    · rw [h6, g6]

/-- The events of a run of element writes from index 0. -/
theorem putAll_log_zero (v : Var) (xs : List Int) (s : State) :
    (putAll v 0 xs s).log =
      s.log ++ (List.range xs.length).map
        (fun (j : Nat) => Event.store v.name (j : Int) (s.capOf v.val)) := by
  have h := putAll_log v xs 0 s
  simp only [Nat.cast_zero, Nat.zero_add] at h
  exact h

/-- An in-range element write sets its cell. -/
theorem put_cellsOf_self (v : Var) (b i : Nat) (x : Int) (s : State) (blk : Block)
    (hv : v.val = .addr b) (hb : s.mem.get? b = some blk) (hi : i < blk.cap) :
    (put v (i : Int) x s).mem.get? b = some { blk with cells := blk.cells.set i (some x) } := by
  have hc : s.capOf (.addr b) = blk.cap := by simp only [State.capOf, hb]
  have hcond : 0 ≤ (i : Int) ∧ (i : Int) < (s.capOf (.addr b) : Int) := by
    rw [hc]; constructor <;> omega
  unfold put
  simp only [hv, State.emit, if_pos hcond, poke_get?, if_true, hb, Option.map_some',
    Int.toNat_ofNat]

/-- An in-range run of element writes sets the cells as `setFrom` does. -/
theorem putAll_cellsOf_self (v : Var) (b : Nat) (hv : v.val = .addr b) :
    ∀ (xs : List Int) (i : Nat) (s : State) (blk : Block),
      s.mem.get? b = some blk → i + xs.length ≤ blk.cap →
      (putAll v (i : Int) xs s).cellsOf (.addr b) = setFrom blk.cells i xs := by
  intro xs
  induction xs with
  | nil => intro i s blk hb _; simp only [putAll, setFrom, State.cellsOf, hb]
  | cons x xs ih =>
    intro i s blk hb hi
    simp only [List.length_cons] at hi
    simp only [putAll, setFrom]
    have h1 := put_cellsOf_self v b i x s blk hv hb (by omega)
    have := ih (i + 1) (put v i x s) _ h1 (by simp only []; omega)
    simp only [Nat.cast_add, Nat.cast_one] at this
    exact this

/-- The string held by the bytes `chars` followed by a null. -/
theorem cstring_terminated : ∀ (chars : List Int) (rest : List (Option Int)),
    cstring ((chars ++ [0]).map some ++ rest) = some (strOf chars) := by
  intro chars
  induction chars with
  | nil => intro rest; simp [cstring, strOf]
  | cons c cs ih =>
    intro rest
    have ih1 := ih rest
    simp only [List.map_append, List.map_cons, List.map_nil, List.cons_append,
      List.append_assoc, List.nil_append, strOf] at ih1 ⊢
    by_cases hc : c = 0
    · have hs : stops [] c = true := by simp [stops, hc]
      simp only [cstring, if_pos hc, List.takeWhile_cons, hs, Bool.not_true]
      rfl
    · have hs : stops [] c = false := by simp [stops, hc]
      simp only [cstring, if_neg hc, List.takeWhile_cons, hs, Bool.not_false, if_true, ih1,
        Option.map_some']

/-- The string is no longer than the bytes that hold it. -/
theorem length_strOf_le (chars : List Int) : (strOf chars).length ≤ chars.length :=
  length_cut_le [] chars

/-- Bytes without a null are their own string. -/
theorem strOf_eq_self (chars : List Int) (h : ∀ c ∈ chars, c ≠ 0) : strOf chars = chars := by
  unfold strOf
  rw [List.takeWhile_eq_self_iff]
  intro c hc
  simp [stops, h c hc]

/-- The copy from a variable source that holds a string into a live destination. -/
theorem strcpyFrom_some (dst src : Var) (s : State) (str : List Int)
    (hd : s.target dst.val = .live) (hs : s.target src.val = .live)
    (hc : cstring (s.cellsOf src.val) = some str) :
    strcpyFrom dst src s =
      some (putAll dst 0 (str ++ [0])
        (((s.emit (.use dst.name "strcpy.dest" .live)).emit
          (.use src.name "strcpy.src" .live)).emit
          (.copy dst.name (str.length + 1) (s.capOf dst.val)))) := by
  simp only [strcpyFrom, hd, hs, hc]

/-- The writes at the indices below `n` stay inside a block exactly when `n` is at most its capacity. -/
theorem oob_range_nil_iff (v : String) (cap n : Nat) :
    ((List.range n).map (fun (j : Nat) => (v, (j : Int), cap))).filter
        (fun w => !inBounds w) = [] ↔ n ≤ cap := by
  simp only [List.filter_eq_nil_iff, List.mem_map, List.mem_range, Bool.not_eq_true,
    Bool.not_eq_false', forall_exists_index, and_imp]
  constructor
  · intro h
    by_contra hn
    have := h (v, (cap : Int), cap) cap (by omega) rfl
    simp [inBounds] at this
  · intro h w j hj hw
    subst hw
    simp only [inBounds, Bool.and_eq_true, decide_eq_true_eq]
    constructor <;> omega

/-- The element writes among a run of recorded element writes from index 0. -/
theorem filterMap_stores_range (v : String) (cap n : Nat) :
    (((List.range n).map (fun (j : Nat) => Event.store v (j : Int) cap)).filterMap
      fun e =>
        match e with
        | .store v i c => some (v, i, c)
        | _ => none) =
      (List.range n).map (fun (j : Nat) => (v, (j : Int), cap)) := by
  rw [List.filterMap_map]
  show List.filterMap (some ∘ fun (j : Nat) => (v, (j : Int), cap)) (List.range n) = _
  rw [List.filterMap_eq_map]

/-- No copy is recorded among element writes. -/
theorem filterMap_copies_range (v : String) (cap n : Nat) :
    (((List.range n).map (fun (j : Nat) => Event.store v (j : Int) cap)).filterMap
      fun e =>
        match e with
        | .copy d n c => some (d, n, c)
        | _ => none) = [] := by
  rw [List.filterMap_map, List.filterMap_eq_nil_iff]
  intro a _
  rfl

/-- The element writes after a run of element writes from index 0. -/
theorem stores_putAll_zero (v : Var) (xs : List Int) (s : State) :
    stores (putAll v 0 xs s) =
      stores s ++ (List.range xs.length).map
        (fun (j : Nat) => (v.name, (j : Int), s.capOf v.val)) := by
  simp only [stores, putAll_log_zero, List.filterMap_append, filterMap_stores_range]

/-- A run of element writes records no copy. -/
theorem copies_putAll_zero (v : Var) (xs : List Int) (s : State) :
    copies (putAll v 0 xs s) = copies s := by
  simp only [copies, putAll_log_zero, List.filterMap_append, filterMap_copies_range,
    List.append_nil]

/-- The run of `unsafe_strcpy_variable_source`. -/
theorem unsafe_strcpy_variable_source_run (str : List Int) :
    ∃ s, unsafe_strcpy_variable_source str = some s ∧
      copies s = [("buffer", (strOf str).length + 1, 50)] ∧
      stores s = (List.range ((strOf str).length + 1)).map
        (fun (j : Nat) => ("buffer", (j : Int), 50)) := by
  have hrun : unsafe_strcpy_variable_source str =
      (strcpyFrom ⟨"buffer", .addr 1⟩ ⟨"input", .addr 0⟩
        ⟨[⟨"input", .stack, str.length + 1, false, (str ++ [0]).map some⟩,
          ⟨"buffer", .stack, 50, false, List.replicate 50 none⟩], [], [], [], []⟩).map
        (fun s => ret 54 s) := rfl
  have hc := cstring_terminated str []
  rw [List.append_nil] at hc
  rw [hrun, strcpyFrom_some ⟨"buffer", .addr 1⟩ ⟨"input", .addr 0⟩
    ⟨[⟨"input", .stack, str.length + 1, false, List.map some (str ++ [0])⟩,
      ⟨"buffer", .stack, 50, false, List.replicate 50 none⟩], [], [], [], []⟩
    (strOf str) rfl rfl hc]
  refine ⟨_, rfl, ?_, ?_⟩
  · simp only [copies, ret, State.emit, putAll_log_zero, List.filterMap_append,
      filterMap_copies_range, List.filterMap_cons, List.filterMap_nil, List.nil_append,
      List.append_nil, State.capOf, List.get?_cons_succ, List.get?_cons_zero]
  · simp only [stores, ret, State.emit, putAll_log_zero, List.filterMap_append,
      filterMap_stores_range, List.filterMap_cons, List.filterMap_nil, List.nil_append,
      List.append_nil, State.capOf, List.get?_cons_succ, List.get?_cons_zero,
      List.length_append, List.length_singleton]

/-- The copy of a literal into a live destination. -/
theorem strcpy_live (dst : Var) (lit : String) (s : State) (hd : s.target dst.val = .live) :
    strcpy dst lit s =
      putAll dst 0 (litBytes lit ++ [0])
        ((s.emit (.use dst.name "strcpy.dest" .live)).emit
          (.copy dst.name (litSize lit) (s.capOf dst.val))) := by
  simp only [strcpy, hd]

/-- The call `fgets` on a live destination and a non-empty input. -/
theorem fgets_live (dst : Var) (n : Nat) (s : State) (hd : s.target dst.val = .live)
    (hn : n ≠ 0) (hin : s.stdin ≠ []) :
    fgets dst n s =
      (dst.val, putAll dst 0 (fgetsChars (n - 1) s.stdin ++ [0])
        { (s.emit (.use dst.name "fgets.dest" .live)) with
          stdin := s.stdin.drop (fgetsChars (n - 1) s.stdin).length }) := by
  have hc : ¬ (n = 0 ∨ s.stdin = []) := by
    rintro (h | h)
    · exact hn h
    · exact hin h
  simp only [fgets, hd, if_neg hc]

/-- A run of element writes changes no capacity. -/
theorem putAll_capOf (v : Var) (xs : List Int) (i : Int) (s : State) (p : Ptr) :
    (putAll v i xs s).capOf p = s.capOf p :=
  (putAll_frame v xs i s).1 p

/-- A run of element writes changes no lifetime. -/
theorem putAll_target (v : Var) (xs : List Int) (i : Int) (s : State) (p : Ptr) :
    (putAll v i xs s).target p = s.target p :=
  (putAll_frame v xs i s).2.1 p

/-- A run of element writes changes the cells of no other block. -/
theorem putAll_cellsOf_ne (v : Var) (xs : List Int) (i : Int) (s : State) (p : Ptr)
    (h : v.val ≠ p) : (putAll v i xs s).cellsOf p = s.cellsOf p :=
  (putAll_frame v xs i s).2.2.1 p h

/-- Recording an event changes no capacity. -/
theorem emit_capOf (s : State) (e : Event) (p : Ptr) : (s.emit e).capOf p = s.capOf p := rfl

/-- Recording an event changes no lifetime. -/
theorem emit_target (s : State) (e : Event) (p : Ptr) : (s.emit e).target p = s.target p := rfl

/-- Recording an event changes no cell. -/
theorem emit_cellsOf (s : State) (e : Event) (p : Ptr) : (s.emit e).cellsOf p = s.cellsOf p := rfl

/-- The copies after one more event. -/
theorem copies_emit (s : State) (e : Event) :
    copies (s.emit e) = copies s ++
      (match e with
       | .copy d n c => [(d, n, c)]
       | _ => []) := by
  cases e <;> simp [copies, State.emit, List.filterMap_append]

/-- The element writes after one more event. -/
theorem stores_emit (s : State) (e : Event) :
    stores (s.emit e) = stores s ++
      (match e with
       | .store v i c => [(v, i, c)]
       | _ => []) := by
  cases e <;> simp [stores, State.emit, List.filterMap_append]

/-- The run of `process_user_data`. -/
theorem process_user_data_run (username password : List Int) :
    ∃ s, process_user_data username password = some s ∧
      copies s = [("user.name", 12, 30), ("user.email", (strOf username).length + 1, 50)] ∧
      stores s =
        (List.range 12).map (fun (j : Nat) => ("user.name", (j : Int), 30)) ++
        (List.range ((strOf username).length + 1)).map
          (fun (j : Nat) => ("user.email", (j : Int), 50)) := by
  obtain ⟨S0, hS0⟩ : ∃ S0 : State, S0 =
      ⟨[⟨"username", .stack, username.length + 1, false, List.map some (username ++ [0])⟩,
        ⟨"password", .stack, password.length + 1, false, List.map some (password ++ [0])⟩,
        ⟨"user.name", .stack, 30, false, List.replicate 30 none⟩,
        ⟨"user.email", .stack, 50, false, List.replicate 50 none⟩], [], [], [], []⟩ := ⟨_, rfl⟩
  have hrun : process_user_data username password =
      (strcpyFrom ⟨"user.email", .addr 3⟩ ⟨"username", .addr 0⟩
        (strcpy ⟨"user.name", .addr 2⟩ "DefaultUser" S0)).map (fun s => ret 306 s) := by
    rw [hS0]; rfl
  have t0 : S0.target (.addr 0) = .live := by rw [hS0]; rfl
  have t2 : S0.target (.addr 2) = .live := by rw [hS0]; rfl
  have t3 : S0.target (.addr 3) = .live := by rw [hS0]; rfl
  have c0 : S0.cellsOf (.addr 0) = List.map some (username ++ [0]) := by rw [hS0]; rfl
  have k2 : S0.capOf (.addr 2) = 30 := by rw [hS0]; rfl
  have k3 : S0.capOf (.addr 3) = 50 := by rw [hS0]; rfl
  have hcp : copies S0 = [] := by rw [hS0]; rfl
  have hst : stores S0 = [] := by rw [hS0]; rfl
  have hc := cstring_terminated username []
  rw [List.append_nil] at hc
  have hlen : (litBytes "DefaultUser" ++ [0]).length = 12 := by decide
  have hsz : litSize "DefaultUser" = 12 := by decide
  obtain ⟨S1, hS1⟩ : ∃ S1 : State, S1 = strcpy ⟨"user.name", .addr 2⟩ "DefaultUser" S0 :=
    ⟨_, rfl⟩
  have hS1a := hS1
  rw [strcpy_live ⟨"user.name", .addr 2⟩ "DefaultUser" S0 t2] at hS1a
  have t0a : S1.target (.addr 0) = .live := by rw [hS1a, putAll_target]; exact t0
  have t3a : S1.target (.addr 3) = .live := by rw [hS1a, putAll_target]; exact t3
  have c0a : S1.cellsOf (.addr 0) = List.map some (username ++ [0]) := by
    rw [hS1a, putAll_cellsOf_ne _ _ _ _ _ (by decide)]; exact c0
  have k3a : S1.capOf (.addr 3) = 50 := by rw [hS1a, putAll_capOf]; exact k3
  have hcpa : copies S1 = [("user.name", 12, 30)] := by
    rw [hS1a]
    simp only [copies_emit, copies_putAll_zero, hcp, k2, hsz, List.nil_append, List.append_nil]
  have hsta : stores S1 = (List.range 12).map (fun (j : Nat) => ("user.name", (j : Int), 30)) := by
    rw [hS1a]
    simp only [stores_emit, stores_putAll_zero, putAll_capOf, emit_capOf, hst, k2, hlen,
      List.nil_append, List.append_nil]
  rw [hrun, ← hS1, strcpyFrom_some ⟨"user.email", .addr 3⟩ ⟨"username", .addr 0⟩ S1
    (strOf username) t3a t0a ((congrArg cstring c0a).trans hc)]
  refine ⟨_, rfl, ?_, ?_⟩
  · simp only [ret, copies_emit, copies_putAll_zero, hcpa, k3a, List.append_nil,
      List.singleton_append]
  · simp only [ret, stores_emit, stores_putAll_zero, putAll_capOf, emit_capOf, hsta, k3a,
      List.append_nil, List.length_append, List.length_singleton]

/-- The run of `unsafe_strcpy_from_user` on a non-empty input. -/
theorem unsafe_strcpy_from_user_run (input : List Int) (h : input ≠ []) :
    ∃ s, unsafe_strcpy_from_user input = some s ∧
      copies s = [("dest", (strOf (fgetsChars 99 input)).length + 1, 20)] ∧
      stores s =
        (List.range ((fgetsChars 99 input).length + 1)).map
          (fun (j : Nat) => ("source", (j : Int), 100)) ++
        (List.range ((strOf (fgetsChars 99 input)).length + 1)).map
          (fun (j : Nat) => ("dest", (j : Int), 20)) := by
  have hlen := fgetsChars_length 99 input
  obtain ⟨S0, hS0⟩ : ∃ S0 : State, S0 =
      ⟨[⟨"dest", .stack, 20, false, List.replicate 20 none⟩,
        ⟨"source", .stack, 100, false, List.replicate 100 none⟩], [], input, [], []⟩ := ⟨_, rfl⟩
  have hrun : unsafe_strcpy_from_user input =
      (strcpyFrom ⟨"dest", .addr 0⟩ ⟨"source", .addr 1⟩
        (fgets ⟨"source", .addr 1⟩ 100 S0).2).map (fun s => ret 70 s) := by
    rw [hS0]; rfl
  have t1 : S0.target (.addr 1) = .live := by rw [hS0]; rfl
  have hin : S0.stdin = input := by rw [hS0]
  have hfg := fgets_live ⟨"source", .addr 1⟩ 100 S0 t1 (by decide) (by rw [hin]; exact h)
  simp only [hin, Nat.add_one_sub_one] at hfg
  obtain ⟨P, hP⟩ : ∃ P : State, P =
      { (S0.emit (.use "source" "fgets.dest" .live)) with
        stdin := input.drop (fgetsChars 99 input).length } := ⟨_, rfl⟩
  obtain ⟨S1, hS1⟩ : ∃ S1 : State, S1 = (fgets ⟨"source", .addr 1⟩ 100 S0).2 := ⟨_, rfl⟩
  have hS1a : S1 = putAll ⟨"source", .addr 1⟩ 0 (fgetsChars 99 input ++ [0]) P := by
    rw [hS1, hfg, hP]
  have p0 : P.target (.addr 0) = .live := by rw [hP, hS0]; rfl
  have p1 : P.target (.addr 1) = .live := by rw [hP, hS0]; rfl
  have pk0 : P.capOf (.addr 0) = 20 := by rw [hP, hS0]; rfl
  have pk1 : P.capOf (.addr 1) = 100 := by rw [hP, hS0]; rfl
  have pcp : copies P = [] := by rw [hP, hS0]; rfl
  have pst : stores P = [] := by rw [hP, hS0]; rfl
  have pget : P.mem.get? 1 = some ⟨"source", .stack, 100, false, List.replicate 100 none⟩ := by
    rw [hP, hS0]; rfl
  have hcells := putAll_cellsOf_self ⟨"source", .addr 1⟩ 1 rfl (fgetsChars 99 input ++ [0]) 0 P _
    pget (by simp only [List.length_append, List.length_singleton]; omega)
  have hfresh := setFrom_fresh (fgetsChars 99 input ++ [0]) [] 100
    (by simp only [List.length_append, List.length_singleton]; omega)
  simp only [List.nil_append, List.length_nil] at hfresh
  simp only [Nat.cast_zero] at hcells
  rw [hfresh] at hcells
  have t0a : S1.target (.addr 0) = .live := by rw [hS1a, putAll_target]; exact p0
  have t1a : S1.target (.addr 1) = .live := by rw [hS1a, putAll_target]; exact p1
  have k0a : S1.capOf (.addr 0) = 20 := by rw [hS1a, putAll_capOf]; exact pk0
  have c1a : cstring (S1.cellsOf (.addr 1)) = some (strOf (fgetsChars 99 input)) := by
    rw [hS1a, hcells]; exact cstring_terminated _ _
  have hcpa : copies S1 = [] := by
    rw [hS1a]; simp only [copies_putAll_zero, pcp]
  have hsta : stores S1 = (List.range ((fgetsChars 99 input).length + 1)).map
      (fun (j : Nat) => ("source", (j : Int), 100)) := by
    rw [hS1a]
    simp only [stores_putAll_zero, pst, pk1, List.nil_append, List.length_append,
      List.length_singleton]
  rw [hrun, ← hS1, strcpyFrom_some ⟨"dest", .addr 0⟩ ⟨"source", .addr 1⟩ S1
    (strOf (fgetsChars 99 input)) t0a t1a c1a]
  refine ⟨_, rfl, ?_, ?_⟩
  · simp only [ret, copies_emit, copies_putAll_zero, hcpa, k0a, List.append_nil,
      List.nil_append]
  · simp only [ret, stores_emit, stores_putAll_zero, putAll_capOf, emit_capOf, hsta, k0a,
      List.append_nil, List.length_append, List.length_singleton]

/-- The out-of-bounds writes, from the element writes. -/
theorem oobStores_eq (s : State) (l : List (String × Int × Nat)) (h : stores s = l) :
    oobStores s = l.filter (fun w => !inBounds w) := by
  rw [oobStores, h]

/-- C11: each `strcpy` from a variable copies the source string and its
terminating null, `length + 1` bytes, whatever the capacity of its
destination: into `buffer[50]` in `unsafe_strcpy_variable_source`, into
`dest[20]` in `unsafe_strcpy_from_user` (after a successful `fgets`), into
`user.email[50]` in `process_user_data` (after the 12-byte literal copy into
`user.name[30]`). It writes past the destination exactly when the length of
the source string is at least the capacity, and a source that does so exists
in each case. The string that `fgets(source, 100, stdin)` leaves occupies at
most 100 bytes, and 99 characters are reached. At the end of the input `fgets`
stores nothing and `strcpy` reads an indeterminate `source`: the run is
undefined. -/
theorem nonliteral_copies :
    (∀ str : List Int, ∃ s, unsafe_strcpy_variable_source str = some s ∧
        copies s = [("buffer", (strOf str).length + 1, 50)] ∧
        (oobStores s ≠ [] ↔ 50 ≤ (strOf str).length)) ∧
      (∀ input : List Int, input ≠ [] → ∃ s, unsafe_strcpy_from_user input = some s ∧
        copies s = [("dest", (strOf (fgetsChars 99 input)).length + 1, 20)] ∧
        (strOf (fgetsChars 99 input)).length + 1 ≤ 100 ∧
        (oobStores s ≠ [] ↔ 20 ≤ (strOf (fgetsChars 99 input)).length)) ∧
      (∀ username password : List Int, ∃ s, process_user_data username password = some s ∧
        copies s = [("user.name", 12, 30), ("user.email", (strOf username).length + 1, 50)] ∧
        (oobStores s ≠ [] ↔ 50 ≤ (strOf username).length)) ∧
      (∀ str : List Int, (∀ c ∈ str, c ≠ 0) → strOf str = str) ∧
      (unsafe_strcpy_variable_source (List.replicate 50 65)).map oobStores =
        some [("buffer", 50, 50)] ∧
      (unsafe_strcpy_from_user (List.replicate 99 65)).map copies = some [("dest", 100, 20)] ∧
      (process_user_data (List.replicate 50 65) []).map oobStores =
        some [("user.email", 50, 50)] ∧
      unsafe_strcpy_from_user [] = none := by
  refine ⟨fun str => ?_, fun input h => ?_, fun username password => ?_, strOf_eq_self,
    by decide, by decide, by decide, by decide⟩
  · obtain ⟨s, hs, hc, hst⟩ := unsafe_strcpy_variable_source_run str
    refine ⟨s, hs, hc, ?_⟩
    rw [oobStores_eq s _ hst, Ne, oob_range_nil_iff]
    omega
  · obtain ⟨s, hs, hc, hst⟩ := unsafe_strcpy_from_user_run input h
    have h1 := length_strOf_le (fgetsChars 99 input)
    have h2 := fgetsChars_length 99 input
    refine ⟨s, hs, hc, by omega, ?_⟩
    rw [oobStores_eq s _ hst, Ne, List.filter_append, List.append_eq_nil,
      oob_range_nil_iff, oob_range_nil_iff]
    omega
  · obtain ⟨s, hs, hc, hst⟩ := process_user_data_run username password
    refine ⟨s, hs, hc, ?_⟩
    rw [oobStores_eq s _ hst, Ne, List.filter_append, List.append_eq_nil,
      oob_range_nil_iff, oob_range_nil_iff]
    omega

/-- Witness of `nonliteral_copies` on the one-character input `A`. -/
theorem nonliteral_copies_witness :
    ∃ s, unsafe_strcpy_from_user [65] = some s ∧
      copies s = [("dest", (strOf (fgetsChars 99 [65])).length + 1, 20)] ∧
      (strOf (fgetsChars 99 [65])).length + 1 ≤ 100 ∧
      (oobStores s ≠ [] ↔ 20 ≤ (strOf (fgetsChars 99 [65])).length) :=
  nonliteral_copies.2.1 [65] (by decide)

/-- The call `gets` on a live destination and a non-empty input. -/
theorem gets_live (dst : Var) (s : State) (hd : s.target dst.val = .live)
    (hin : s.stdin ≠ []) :
    gets dst s =
      (dst.val, putAll dst 0 (s.stdin.takeWhile (fun c => decide (c ≠ newline)) ++ [0])
        { (s.emit (.use dst.name "gets.dest" .live)) with
          stdin := s.stdin.drop
            ((s.stdin.takeWhile (fun c => decide (c ≠ newline))).length + 1) }) := by
  simp only [gets, hd, if_neg hin]

/-- The element writes of `extremely_dangerous_gets` on a non-empty input. -/
theorem extremely_dangerous_gets_run (input : List Int) (h : input ≠ []) :
    stores (extremely_dangerous_gets input) =
      (List.range ((input.takeWhile (fun c => decide (c ≠ newline))).length + 1)).map
        (fun (j : Nat) => ("buffer", (j : Int), 50)) := by
  obtain ⟨S0, hS0⟩ : ∃ S0 : State, S0 =
      ⟨[⟨"buffer", .stack, 50, false, List.replicate 50 none⟩], [], input, [], []⟩ := ⟨_, rfl⟩
  have hrun : extremely_dangerous_gets input =
      ret 263 (gets ⟨"buffer", .addr 0⟩ S0).2 := by
    rw [hS0]; rfl
  have t0 : S0.target (.addr 0) = .live := by rw [hS0]; rfl
  have k0 : S0.capOf (.addr 0) = 50 := by rw [hS0]; rfl
  have hst : stores S0 = [] := by rw [hS0]; rfl
  have hin : S0.stdin = input := by rw [hS0]
  have hg := gets_live ⟨"buffer", .addr 0⟩ S0 t0 (by rw [hin]; exact h)
  rw [hrun, hg]
  simp only [hin, ret, stores_emit, stores_putAll_zero, List.append_nil, List.length_append,
    List.length_singleton]
  have e1 : stores { (S0.emit (.use "buffer" "gets.dest" .live)) with
      stdin := input.drop ((input.takeWhile (fun c => decide (c ≠ newline))).length + 1) } =
      [] := by rw [hS0]; rfl
  have e2 : State.capOf { (S0.emit (.use "buffer" "gets.dest" .live)) with
      stdin := input.drop ((input.takeWhile (fun c => decide (c ≠ newline))).length + 1) }
      (.addr 0) = 50 := by rw [hS0]; rfl
  rw [e1, e2, List.nil_append]

/-- C13: `gets(buffer)` in `extremely_dangerous_gets` stores every character
of the input line, up to the newline or the end of the input, and a null, at
`buffer[0]`, `buffer[1]`, ...: it writes past the 50 bytes of `buffer` exactly
when the line has 50 characters or more, and stays inside exactly when it has
at most 49. At the end of the input nothing is written. No bound holds: for
every `n` some input makes the call write more than `n` bytes. -/
theorem gets_is_unbounded :
    (∀ input : List Int, input ≠ [] →
        stores (extremely_dangerous_gets input) =
          (List.range ((input.takeWhile (fun c => decide (c ≠ newline))).length + 1)).map
            (fun (j : Nat) => ("buffer", (j : Int), 50)) ∧
        (oobStores (extremely_dangerous_gets input) ≠ [] ↔
          50 ≤ (input.takeWhile (fun c => decide (c ≠ newline))).length) ∧
        (oobStores (extremely_dangerous_gets input) = [] ↔
          (input.takeWhile (fun c => decide (c ≠ newline))).length ≤ 49)) ∧
      stores (extremely_dangerous_gets []) = [] ∧
      (∀ n : Nat, ∃ input : List Int, n < (stores (extremely_dangerous_gets input)).length) := by
  refine ⟨fun input h => ?_, by decide, fun n => ?_⟩
  · have hst := extremely_dangerous_gets_run input h
    refine ⟨hst, ?_, ?_⟩
    · rw [oobStores_eq _ _ hst, Ne, oob_range_nil_iff]; omega
    · rw [oobStores_eq _ _ hst, oob_range_nil_iff]; omega
  · refine ⟨List.replicate (n + 1) 65, ?_⟩
    rw [extremely_dangerous_gets_run _ (by simp)]
    have : (List.replicate (n + 1) (65 : Int)).takeWhile (fun c => decide (c ≠ newline)) =
        List.replicate (n + 1) 65 := by
      rw [List.takeWhile_eq_self_iff]
      intro c hc
      rw [List.eq_of_mem_replicate hc]
      decide
    rw [this]
    simp only [List.length_map, List.length_range, List.length_replicate]
    omega

/-- Witness of `gets_is_unbounded` on the one-character input `A`. -/
theorem gets_is_unbounded_witness :
    stores (extremely_dangerous_gets [65]) =
      (List.range (([65] : List Int).takeWhile (fun c => decide (c ≠ newline))).length.succ).map
        (fun (j : Nat) => ("buffer", (j : Int), 50)) :=
  (gets_is_unbounded.1 [65] (by decide)).1

/-! ## Section 11: the mixed function, and the early return -/

/-- C12: of the three `strcpy` calls of `mixed_safety_function` exactly one is
longer than its destination: 21 bytes into `unsafe_buf[10]`, whose bytes 10 to
20 are written past its end. `safe_buf` receives 6 bytes of its 100, and
`dynamic` 5 bytes of its 50, only when `malloc` succeeded; it is then freed
right before the return. For either outcome of `malloc` no null pointer is
used, no use of `dynamic` is unchecked, nothing is used or freed after its
`free`, and nothing is left allocated. -/
theorem mixed_safety_copies :
    copies (mixed_safety_function true) =
        [("safe_buf", 6, 100), ("unsafe_buf", 21, 10), ("dynamic", 5, 50)] ∧
      copies (mixed_safety_function false) = [("safe_buf", 6, 100), ("unsafe_buf", 21, 10)] ∧
      frees (mixed_safety_function true) = [("dynamic", .live)] ∧
      frees (mixed_safety_function false) = [] ∧
      (mixed_safety_function true).log.dropLast.getLast? = some (.free "dynamic" .live) ∧
      ∀ ok : Bool,
        overlongCopies (mixed_safety_function ok) = [("unsafe_buf", 21, 10)] ∧
          oobStores (mixed_safety_function ok) =
            (List.range 11).map (fun (j : Nat) => ("unsafe_buf", ((j + 10 : Nat) : Int), 10)) ∧
          nullDerefs (mixed_safety_function ok) = [] ∧
          uncheckedUses (mixed_safety_function ok) = [] ∧
          usesAfterFree (mixed_safety_function ok) = [] ∧
          doubleFrees (mixed_safety_function ok) = [] ∧
          leaked (mixed_safety_function ok) = [] := by
  decide

/-- C15: `memory_leak_early_return` returns, for every bound of at least 52
evaluations of its loop condition, and never executes `free(numbers)`. When
`malloc` fails it returns at line 153, before the loop, having written
nothing. When `malloc` succeeds the loop writes `numbers[i] = i` for exactly
`i = 0 .. 50`, all inside the 100 elements of the block, and the function
returns at line 162, inside the loop, with `numbers` still allocated. -/
theorem early_return_never_frees (ok : Bool) (fuel : Nat) (h : 52 ≤ fuel) :
    ∃ s, memory_leak_early_return ok fuel = some s ∧
      frees s = [] ∧
      oobStores s = [] ∧
      (ok = false → exits s = [153] ∧ stores s = [] ∧ leaked s = []) ∧
      (ok = true → exits s = [162] ∧
        stores s = (List.range 51).map (fun (i : Nat) => ("numbers", (i : Int), 100)) ∧
        s.cellsOf (.addr 0) =
          (List.range 51).map (fun (i : Nat) => some (i : Int)) ++ List.replicate 49 none ∧
        leaked s = ["numbers"]) := by
  rw [memory_leak_early_return_fuel ok fuel h]
  cases ok with
  | false =>
    exact ⟨_, rfl, by decide, by decide, fun _ => by decide, fun h => absurd h (by decide)⟩
  | true =>
    cases hs : memory_leak_early_return true 52 with
    | none => exact absurd hs (by decide)
    | some s =>
      have hd1 : (memory_leak_early_return true 52).map frees = some [] := by decide
      have hd2 : (memory_leak_early_return true 52).map oobStores = some [] := by decide
      have hd3 : (memory_leak_early_return true 52).map exits = some [162] := by decide
      have hd4 : (memory_leak_early_return true 52).map stores =
          some ((List.range 51).map (fun (i : Nat) => ("numbers", (i : Int), 100))) := by decide
      have hd5 : (memory_leak_early_return true 52).map (fun s => s.cellsOf (.addr 0)) =
          some ((List.range 51).map (fun (i : Nat) => some (i : Int)) ++
            List.replicate 49 none) := by decide
      have hd6 : (memory_leak_early_return true 52).map leaked = some ["numbers"] := by decide
      rw [hs] at hd1 hd2 hd3 hd4 hd5 hd6
      simp only [Option.map_some', Option.some.injEq] at hd1 hd2 hd3 hd4 hd5 hd6
      exact ⟨s, rfl, hd1, hd2, fun h => absurd h (by decide), fun _ => ⟨hd3, hd4, hd5, hd6⟩⟩

/-- Witness of `early_return_never_frees` with `malloc` succeeding and a bound of 52. -/
theorem early_return_never_frees_witness :
    52 ≤ 52 ∧ ∃ s, memory_leak_early_return true 52 = some s ∧
      frees s = [] ∧
      oobStores s = [] ∧
      (true = false → exits s = [153] ∧ stores s = [] ∧ leaked s = []) ∧
      (true = true → exits s = [162] ∧
        stores s = (List.range 51).map (fun (i : Nat) => ("numbers", (i : Int), 100)) ∧
        s.cellsOf (.addr 0) =
          (List.range 51).map (fun (i : Nat) => some (i : Int)) ++ List.replicate 49 none ∧
        leaked s = ["numbers"]) :=
  ⟨by decide, early_return_never_frees true 52 (by decide)⟩

/-! ## Sections 8 and 10: formats -/

/-- A number below `10 ^ k` has at most `k` decimal digits. -/
theorem digitsOf_length_le : ∀ (fuel n k : Nat), 0 < k → n < 10 ^ k →
    (digitsOf fuel n).length ≤ k := by
  intro fuel
  induction fuel with
  | zero => intro n k _ _; simp [digitsOf]
  | succ fuel ih =>
    intro n k hk hn
    simp only [digitsOf]
    split
    · simp only [List.length_singleton]; omega
    · rename_i h10
      obtain ⟨m, rfl⟩ : ∃ m, k = m + 1 := ⟨k - 1, by omega⟩
      have hm : 0 < m := by
        by_contra h0
        have : m = 0 := by omega
        subst this
        simp at hn
        omega
      have hdiv : n / 10 < 10 ^ m := by
        rw [Nat.div_lt_iff_lt_mul (by decide)]
        rw [pow_succ] at hn
        exact hn
      have := ih (n / 10) m hm hdiv
      simp only [List.length_append, List.length_singleton]
      omega

/-- The conversion `%d` writes at most 11 characters for a 32-bit `int`. -/
theorem decimal_length_le (v : Int) (h1 : -2147483648 ≤ v) (h2 : v ≤ 2147483647) :
    (decimal v).length ≤ 11 := by
  have hab : v.natAbs < 10 ^ 10 := by omega
  have := digitsOf_length_le (v.natAbs + 1) v.natAbs 10 (by decide) hab
  unfold decimal
  split
  · simp only [List.length_cons]; omega
  · omega

/-- The output of the format `Value: %d`. -/
theorem render_value (s : State) (v : Int) :
    render s (litBytes "Value: %d") [.int v] = (litBytes "Value: " ++ decimal v, 0) := by
  have h1 : litBytes "Value: %d" = [86, 97, 108, 117, 101, 58, 32, 37, 100] := by decide
  have h2 : litBytes "Value: " = [86, 97, 108, 117, 101, 58, 32] := by decide
  have hd : chr 'd' = 100 := by decide
  have hs : chr 's' = 115 := by decide
  rw [h1, h2]
  simp [render, renderFrom, percent, hd, hs]

/-- The writes and the copy of `sprintf(dest, "Value: %d", v)` into a fresh `dest[20]`. -/
theorem sprintf_value_run (v : Int) :
    stores (sprintf (decl "dest" 20 (State.init [])).1 (.lit "Value: %d") [.int v]
        (decl "dest" 20 (State.init [])).2) =
        (List.range ((litBytes "Value: " ++ decimal v).length + 1)).map
          (fun (j : Nat) => ("dest", (j : Int), 20)) ∧
      copies (sprintf (decl "dest" 20 (State.init [])).1 (.lit "Value: %d") [.int v]
        (decl "dest" 20 (State.init [])).2) =
        [("dest", (litBytes "Value: " ++ decimal v).length + 1, 20)] := by
  obtain ⟨S0, hS0⟩ : ∃ S0 : State, S0 = (decl "dest" 20 (State.init [])).2 := ⟨_, rfl⟩
  have hv : (decl "dest" 20 (State.init [])).1 = ⟨"dest", .addr 0⟩ := rfl
  have t0 : S0.target (.addr 0) = .live := by rw [hS0]; rfl
  have k0 : S0.capOf (.addr 0) = 20 := by rw [hS0]; rfl
  have hst : stores S0 = [] := by rw [hS0]; rfl
  have hcp : copies S0 = [] := by rw [hS0]; rfl
  rw [← hS0, hv]
  simp only [sprintf, t0, formatBytes, render_value, noteVararg, if_true, useArgs, useFmt,
    stores_putAll_zero, copies_putAll_zero, stores_emit, copies_emit, emit_capOf, k0, hst, hcp,
    List.nil_append, List.append_nil, List.length_append, List.length_singleton, and_self]

/-- C16: the `sprintf` of `unsafe_sprintf` writes 13 bytes, the 12 characters
of `Value: 12345` and the terminating null, into the 20 bytes of `dest`, none
out of bounds, and leaves in `dest` the cells that `safe_snprintf` leaves. For
every value of a 32-bit `int` the conversion `%d` writes at most 11
characters, the output of the format `Value: %d` is its 7 fixed characters
followed by them, at most 18 characters, and the call writes at most 19 bytes,
none outside `dest`. The bound 18 is reached at -2147483648. -/
theorem sprintf_value_fits :
    copies unsafe_sprintf = [("dest", 13, 20)] ∧
      (stores unsafe_sprintf).length = 13 ∧
      oobStores unsafe_sprintf = [] ∧
      cstring (unsafe_sprintf.cellsOf (.addr 0)) = some (litBytes "Value: 12345") ∧
      unsafe_sprintf.cellsOf (.addr 0) = safe_snprintf.cellsOf (.addr 0) ∧
      (∀ v : Int, -2147483648 ≤ v → v ≤ 2147483647 →
        (decimal v).length ≤ 11 ∧
          (render (State.init []) (litBytes "Value: %d") [.int v]).1 =
            litBytes "Value: " ++ decimal v ∧
          (render (State.init []) (litBytes "Value: %d") [.int v]).1.length ≤ 18 ∧
          copies (sprintf (decl "dest" 20 (State.init [])).1 (.lit "Value: %d") [.int v]
              (decl "dest" 20 (State.init [])).2) =
            [("dest", (render (State.init []) (litBytes "Value: %d") [.int v]).1.length + 1,
              20)] ∧
          oobStores (sprintf (decl "dest" 20 (State.init [])).1 (.lit "Value: %d") [.int v]
              (decl "dest" 20 (State.init [])).2) = []) ∧
      (litBytes "Value: ").length = 7 ∧
      (decimal (-2147483648)).length = 11 ∧
      (render (State.init []) (litBytes "Value: %d") [.int (-2147483648)]).1.length = 18 := by
  refine ⟨by decide, by decide, by decide, by decide, by decide, fun v h1 h2 => ?_, by decide,
    by decide, by decide⟩
  have hd := decimal_length_le v h1 h2
  have h7 : (litBytes "Value: ").length = 7 := by decide
  obtain ⟨hst, hcp⟩ := sprintf_value_run v
  refine ⟨hd, by rw [render_value], ?_, ?_, ?_⟩
  · rw [render_value]
    simp only [List.length_append, h7]
    omega
  · rw [render_value]
    exact hcp
  · rw [oobStores_eq _ _ hst, oob_range_nil_iff]
    simp only [List.length_append, h7]
    omega

/-- Witness of `sprintf_value_fits` at the least `int`. -/
theorem sprintf_value_fits_witness :
    (decimal (-2147483648)).length ≤ 11 ∧
      oobStores (sprintf (decl "dest" 20 (State.init [])).1 (.lit "Value: %d")
        [.int (-2147483648)] (decl "dest" 20 (State.init [])).2) = [] :=
  ⟨(sprintf_value_fits.2.2.2.2.2.1 (-2147483648) (by decide) (by decide)).1,
   (sprintf_value_fits.2.2.2.2.2.1 (-2147483648) (by decide) (by decide)).2.2.2.2⟩

/-- The pointer uses after one more event. -/
theorem uses_emit (s : State) (e : Event) :
    uses (s.emit e) = uses s ++
      (match e with
       | .use v site _ => [(v, site)]
       | _ => []) := by
  cases e <;> simp [uses, State.emit, List.filterMap_append]

/-- Recording the conversions without argument adds no pointer use. -/
theorem uses_noteVararg (callee : String) (count : Nat) (s : State) :
    uses (noteVararg callee count s) = uses s := by
  unfold noteVararg
  split
  · rfl
  · rw [uses_emit, List.append_nil]

/-- Writing to a stream adds no pointer use. -/
theorem uses_writeTo (stream : Stream) (bytes : List Int) (s : State) :
    uses (writeTo stream bytes s) = uses s := by
  cases stream <;> rfl

/-- The pointer uses of a formatting call whose format is a variable and that has no other argument. -/
theorem uses_fprintfAs_var (callee : String) (stream : Stream) (v : Var) (s : State) :
    uses (fprintfAs callee stream (.var v) [] s) = uses s ++ [(v.name, callee ++ ".format")] := by
  simp only [fprintfAs, uses_noteVararg, uses_writeTo, useArgs, useFmt, uses_emit]

/-- The output of the format `%s`. -/
theorem render_s (s : State) (v : Var) :
    render s (litBytes "%s") [.str v] = (argString s v, 0) := by
  have h1 : litBytes "%s" = [37, 115] := by decide
  have hs : chr 's' = 115 := by decide
  rw [h1]
  simp [render, renderFrom, percent, hs]

/-- The output of the format `%s` followed by a newline. -/
theorem render_s_nl (s : State) (v : Var) :
    render s (litBytes "%s\n") [.str v] = (argString s v ++ [newline], 0) := by
  have h1 : litBytes "%s\n" = [37, 115, 10] := by decide
  have hs : chr 's' = 115 := by decide
  rw [h1]
  simp [render, renderFrom, percent, hs, newline]

/-- The string of a parameter that points at `input`. -/
theorem argString_param (nm : String) (cap : Nat) (input : List Int) (log : List Event)
    (si so se : List Int) (v : String) :
    argString ⟨[⟨nm, .stack, cap, false, List.map some (input ++ [0])⟩], log, si, so, se⟩
      ⟨v, .addr 0⟩ = strOf input := by
  have hc := cstring_terminated input []
  rw [List.append_nil] at hc
  simp only [argString, State.target, State.cellsOf, List.get?_cons_zero, Bool.false_eq_true,
    if_false, hc]

/-- The pointer uses of `format_string_vuln`. -/
theorem format_string_vuln_uses (input : List Int) :
    uses (format_string_vuln input) =
      [("user_input", "printf.format"), ("user_input", "fprintf.format")] := by
  have hrun : format_string_vuln input =
      ret 246 (fprintf .err (.var ⟨"user_input", .addr 0⟩) []
        (printf (.var ⟨"user_input", .addr 0⟩) []
          ⟨[⟨"user_input", .stack, input.length + 1, false, List.map some (input ++ [0])⟩],
            [], [], [], []⟩)) := rfl
  rw [hrun]
  simp only [ret, printf, fprintf, uses_emit, uses_fprintfAs_var, List.append_nil]
  rfl

/-- The run of `safe_format_string`. -/
theorem safe_format_string_run (input : List Int) :
    safe_format_string input =
      ⟨[⟨"user_input", .stack, input.length + 1, false, List.map some (input ++ [0])⟩],
        [.use "user_input" "printf.arg" .live, .use "user_input" "fprintf.arg" .live,
         .ret 252], [], strOf input, strOf input ++ [newline]⟩ := by
  have hrun : safe_format_string input =
      ret 252 (fprintf .err (.lit "%s\n") [.str ⟨"user_input", .addr 0⟩]
        (printf (.lit "%s") [.str ⟨"user_input", .addr 0⟩]
          ⟨[⟨"user_input", .stack, input.length + 1, false, List.map some (input ++ [0])⟩],
            [], [], [], []⟩)) := rfl
  rw [hrun]
  simp only [ret, printf, fprintf, fprintfAs, formatBytes, render_s, render_s_nl, noteVararg,
    if_true, useArgs, useFmt, writeTo, State.emit, argString_param, State.target,
    List.get?_cons_zero, Bool.false_eq_true, if_false, List.nil_append, List.cons_append]
  rfl

/-- C14: in `format_string_vuln` the parameter `user_input` is the format
argument of `printf` and of `fprintf`, whatever string it points to. In
`safe_format_string` both formats are literals and `user_input` is used only
as the argument of `%s`: no conversion lacks its argument, standard output
receives exactly the string of `user_input` and standard error that string
followed by a newline, also when the string contains conversion
specifications. On `%s%d` the formats of `format_string_vuln` have two
conversions each with no argument, while `safe_format_string` prints the
four characters. -/
theorem format_arguments :
    (∀ input : List Int,
        uses (format_string_vuln input) =
          [("user_input", "printf.format"), ("user_input", "fprintf.format")]) ∧
      (∀ input : List Int,
        uses (safe_format_string input) =
            [("user_input", "printf.arg"), ("user_input", "fprintf.arg")] ∧
          varargs (safe_format_string input) = [] ∧
          (safe_format_string input).stdout = strOf input ∧
          (safe_format_string input).stderr = strOf input ++ [newline]) ∧
      (∀ input : List Int, (∀ c ∈ input, c ≠ 0) →
        (safe_format_string input).stdout = input ∧
          (safe_format_string input).stderr = input ++ [newline]) ∧
      varargs (format_string_vuln (litBytes "%s%d")) = [("printf", 2), ("fprintf", 2)] ∧
      (format_string_vuln (litBytes "%s%d")).stdout = [] ∧
      (safe_format_string (litBytes "%s%d")).stdout = litBytes "%s%d" ∧
      (safe_format_string (litBytes "%s%d")).stderr = litBytes "%s%d" ++ [newline] := by
  refine ⟨format_string_vuln_uses, fun input => ?_, fun input h => ?_, by decide, by decide,
    by decide, by decide⟩
  · rw [safe_format_string_run]
    exact ⟨rfl, rfl, rfl, rfl⟩
  · rw [safe_format_string_run, strOf_eq_self input h]
    exact ⟨rfl, rfl⟩

/-- Witness of `format_arguments` on the input `%s`. -/
theorem format_arguments_witness :
    (safe_format_string [37, 115]).stdout = [37, 115] ∧
      (safe_format_string [37, 115]).stderr = [37, 115] ++ [newline] :=
  format_arguments.2.2.1 [37, 115] (by decide)

/-! ## Section 11: the leaderboard -/

/-- The loop of `initialize_leaderboard` ends within 11 evaluations of its
condition. -/
theorem initialize_leaderboard_fuel (fuel : Nat) (h : 11 ≤ fuel) :
    initialize_leaderboard fuel = initialize_leaderboard 11 := by
  simp only [initialize_leaderboard]
  rw [forLoop_stable _ _ 11 _ _ (by decide) fuel h]

/-- C17: `initialize_leaderboard` returns 0, for every bound of at least 11
evaluations of its loop condition. Its loop body runs 10 times, selecting
`board[i]` twice for each `i = 0 .. 9`, always inside the 10 entries; every
`strcpy` copies 10 bytes into a `name` member of 20; no write is out of
bounds. On return every entry has `score` 0 and holds the string `Anonymous`
in `name`. -/
theorem leaderboard_initialized (fuel : Nat) (h : 11 ≤ fuel) :
    ∃ s, initialize_leaderboard fuel = some (0, s) ∧
      exits s = [322] ∧
      selections s =
        (List.range 10).flatMap
          (fun (i : Nat) => [("board", (i : Int), 10), ("board", (i : Int), 10)]) ∧
      copies s =
        (List.range 10).map (fun (i : Nat) => ("board[" ++ toString i ++ "].name", 10, 20)) ∧
      (stores s).length = 110 ∧
      oobStores s = [] ∧
      nullDerefs s = [] ∧
      ∀ i : Nat, i < 10 →
        cellsNamed s ("board[" ++ toString i ++ "].score") = [some 0] ∧
          cstring (cellsNamed s ("board[" ++ toString i ++ "].name")) =
            some (litBytes "Anonymous") := by
  rw [initialize_leaderboard_fuel fuel h]
  cases hs : initialize_leaderboard 11 with
  | none => exact absurd hs (by decide)
  | some r =>
    obtain ⟨v, s⟩ := r
    have hd0 : (initialize_leaderboard 11).map (fun r => r.1) = some 0 := by decide
    have hd1 : (initialize_leaderboard 11).map (fun r => exits r.2) = some [322] := by decide
    have hd2 : (initialize_leaderboard 11).map (fun r => selections r.2) =
        some ((List.range 10).flatMap
          (fun (i : Nat) => [("board", (i : Int), 10), ("board", (i : Int), 10)])) := by decide
    have hd3 : (initialize_leaderboard 11).map (fun r => copies r.2) =
        some ((List.range 10).map
          (fun (i : Nat) => ("board[" ++ toString i ++ "].name", 10, 20))) := by decide
    have hd4 : (initialize_leaderboard 11).map (fun r => (stores r.2).length) = some 110 := by
      decide
    have hd5 : (initialize_leaderboard 11).map (fun r => oobStores r.2) = some [] := by decide
    have hd6 : (initialize_leaderboard 11).map (fun r => nullDerefs r.2) = some [] := by decide
    have hd7 : (initialize_leaderboard 11).map (fun r => decide (∀ i : Nat, i < 10 →
        cellsNamed r.2 ("board[" ++ toString i ++ "].score") = [some 0] ∧
          cstring (cellsNamed r.2 ("board[" ++ toString i ++ "].name")) =
            some (litBytes "Anonymous"))) = some true := by decide
    rw [hs] at hd0 hd1 hd2 hd3 hd4 hd5 hd6 hd7
    simp only [Option.map_some', Option.some.injEq, decide_eq_true_eq] at hd0 hd1 hd2 hd3 hd4 hd5 hd6 hd7
    subst hd0
    exact ⟨s, rfl, hd1, hd2, hd3, hd4, hd5, hd6, hd7⟩

/-- Witness of `leaderboard_initialized` with a bound of 11. -/
theorem leaderboard_initialized_witness :
    11 ≤ 11 ∧ ∃ s, initialize_leaderboard 11 = some (0, s) ∧ exits s = [322] :=
  ⟨by decide, (leaderboard_initialized 11 (by decide)).imp fun _ hs => ⟨hs.1, hs.2.1⟩⟩

end CScan
